import Mathlib

/-!
# YouTube Music plugin: JSON extractor, URL encoding and catalog parsing

A shallow embedding of `src/YouTubeMusicPlugin.cpp`.

* A `std::string` is a `List Char`; a `Char` stands for the byte with the same code, so a
  byte string is a list whose characters all have a code below 256.
* `std::string::npos` is `none`.
* `isalnum`, `isspace` are those of the "C" locale; a byte above 127 is neither.
* A `const char*` taken by `c_str()` denotes the bytes before the first NUL (`c_str`).
* `int braceLevel` is an unbounded `Int` (it moves by one per character of the text, so it
  stays within `int` for every text shorter than 2^31 bytes).
* `float` values that come from an `int` are integers; `floatOfInt` gives that integer exactly.
* The operations of the plugin pass its state `YouTubeMusicPlugin` along; the outside world
  (`Env`) answers as any function of the actions performed so far.
-/

namespace YTMusic

/-- A `std::string`. -/
abbrev Str := List Char

/-! ## `std::string` primitives -/

/-- Scanning loop of `std::string::find`: `s` is the text from index `i` on. -/
def findAux (needle : Str) : Str → Nat → Option Nat
  | [], i => if needle.isEmpty then some i else none
  | c :: cs, i => if needle.isPrefixOf (c :: cs) then some i else findAux needle cs (i + 1)

/-- The call `json.find(needle, pos)`: the first index at or after `pos` where `needle` starts. -/
def find (json needle : Str) (pos : Nat) : Option Nat :=
  if pos ≤ json.length then findAux needle (json.drop pos) pos else none

/-- Scanning loop of `std::string::find_first_of`. -/
def find_first_ofAux (chars : Str) : Str → Nat → Option Nat
  | [], _ => none
  | c :: cs, i => if chars.contains c then some i else find_first_ofAux chars cs (i + 1)

/-- The call `json.find_first_of(chars, pos)`. -/
def find_first_of (json chars : Str) (pos : Nat) : Option Nat :=
  find_first_ofAux chars (json.drop pos) pos

/-- Scanning loop of `std::string::rfind(char)`: remembers the last index seen. -/
def rfindAux (ch : Char) : Str → Nat → Option Nat → Option Nat
  | [], _, last => last
  | c :: cs, i, last => rfindAux ch cs (i + 1) (if c = ch then some i else last)

/-- The call `json.rfind(ch)`: the last index holding `ch`. -/
def rfind (json : Str) (ch : Char) : Option Nat :=
  rfindAux ch json 0 none

/-- The call `json.substr(pos, n)` for `pos ≤ json.size()`. -/
def substr (json : Str) (pos n : Nat) : Str :=
  (json.drop pos).take n

/-- The test `json.compare(pos, n, lit) == 0` for `pos ≤ json.size()`. -/
def compareEq (json : Str) (pos n : Nat) (lit : Str) : Bool :=
  substr json pos n == lit

/-- The read `json[i]`. -/
def charAt (json : Str) (i : Nat) : Char :=
  json.getD i (Char.ofNat 0)

/-- The C function `isspace` ("C" locale): space, `\t`, `\n`, `\v`, `\f`, `\r`. -/
def isspace (c : Char) : Bool :=
  c = ' ' || (9 ≤ c.toNat && c.toNat ≤ 13)

/-- The C function `isdigit`. -/
def isdigit (c : Char) : Bool :=
  48 ≤ c.toNat && c.toNat ≤ 57

/-- The C function `isalnum` ("C" locale): ASCII digits and letters. -/
def isalnum (c : Char) : Bool :=
  isdigit c || (65 ≤ c.toNat && c.toNat ≤ 90) || (97 ≤ c.toNat && c.toNat ≤ 122)

deriving instance DecidableEq for Except

/-- The exceptions of `std::stoi`. -/
inductive StoiError where
  | invalid_argument
  | out_of_range
  deriving DecidableEq, Repr

/-- The value of a run of decimal digits, most significant first. -/
def digitsValue (ds : Str) : Nat :=
  ds.foldl (fun acc d => acc * 10 + (d.toNat - 48)) 0

/-- The call `std::stoi(s)`: skips leading white space, reads an optional sign and the longest run of
decimal digits, ignores what follows; no digit is `invalid_argument`, a value outside
`int` is `out_of_range`. -/
def stoi (s : Str) : Except StoiError Int :=
  let s1 := s.dropWhile isspace
  let neg := s1.head? = some '-'
  let s2 := if s1.head? = some '-' ∨ s1.head? = some '+' then s1.tail else s1
  let ds := s2.takeWhile isdigit
  if ds = [] then .error .invalid_argument
  else
    let n : Int := if neg then -(digitsValue ds : Int) else (digitsValue ds : Int)
    if n < -2147483648 ∨ 2147483647 < n then .error .out_of_range else .ok n

/-! ## `SimpleJSON` -/

/-- The source function `SimpleJSON::ExtractString`. -/
def ExtractString (json key : Str) : Str :=
  let searchKey1 := ['"'] ++ key ++ ['"', ':', '"']
  let searchKey2 := ['"'] ++ key ++ ['"', ':', ' ', '"']
  let pos1 := find json searchKey1 0
  let searchKey := if pos1 = none then searchKey2 else searchKey1
  let pos0 := if pos1 = none then find json searchKey2 0 else pos1
  match pos0 with
  | none => []
  | some p =>
    let pos := p + searchKey.length
    match find json ['"'] pos with
    | none => []
    | some endPos => substr json pos (endPos - pos)

/-- The source function `SimpleJSON::ExtractInt`. -/
def ExtractInt (json key : Str) : Int :=
  let searchKey1 := ['"'] ++ key ++ ['"', ':']
  let searchKey2 := ['"'] ++ key ++ ['"', ':', ' ']
  let pos1 := find json searchKey1 0
  let searchKey := if pos1 = none then searchKey2 else searchKey1
  let pos0 := if pos1 = none then find json searchKey2 0 else pos1
  match pos0 with
  | none => 0
  | some p =>
    let pos := p + searchKey.length
    match find_first_of json [',', '}', '\n'] pos with
    | none => 0
    | some endPos =>
      let numStr := substr json pos (endPos - pos)
      match stoi numStr with
      | .ok v => v
      | .error _ => 0

/-- The loop `while (pos < json.size() && isspace(json[pos])) ++pos;`: `s` is the text from
`pos` on. -/
def skipSpace : Str → Nat → Nat
  | [], pos => pos
  | c :: cs, pos => if isspace c then skipSpace cs (pos + 1) else pos

/-- The tail of `ExtractBool`: the quoted forms `"true"` and `"True"`. -/
def ExtractBoolQuoted (json key : Str) : Bool :=
  let value := ExtractString json key
  if value ≠ [] then value = ['t', 'r', 'u', 'e'] || value = ['T', 'r', 'u', 'e'] else false

/-- The source function `SimpleJSON::ExtractBool`. -/
def ExtractBool (json key : Str) : Bool :=
  let searchKey := ['"'] ++ key ++ ['"', ':']
  match find json searchKey 0 with
  | some p =>
    let pos := skipSpace (json.drop (p + searchKey.length)) (p + searchKey.length)
    if compareEq json pos 4 ['t', 'r', 'u', 'e'] then true
    else if compareEq json pos 5 ['f', 'a', 'l', 's', 'e'] then false
    else ExtractBoolQuoted json key
  | none => ExtractBoolQuoted json key

/-- The `for` loop of `ExtractArray`, with `n` iterations left from index `i`. -/
def ExtractArrayLoop (json : Str) : Nat → Nat → Int → Nat → List Str → List Str
  | 0, _, _, _, items => items
  | n + 1, i, braceLevel, itemStart, items =>
    if charAt json i = '{' then
      ExtractArrayLoop json n (i + 1) (braceLevel + 1) itemStart items
    else if charAt json i = '}' then
      if braceLevel - 1 = 0 then
        ExtractArrayLoop json n (i + 1) (braceLevel - 1) (i + 2)
          (items ++ [substr json itemStart (i - itemStart + 1)])
      else
        ExtractArrayLoop json n (i + 1) (braceLevel - 1) itemStart items
    else
      ExtractArrayLoop json n (i + 1) braceLevel itemStart items

/-- The source function `SimpleJSON::ExtractArray`. -/
def ExtractArray (json : Str) : List Str :=
  match find json ['['] 0, rfind json ']' with
  | some start, some end_ => ExtractArrayLoop json (end_ - (start + 1)) (start + 1) 0 (start + 1) []
  | _, _ => []

/-! ## Records and catalog parsing -/

/-- The conversion `(float)n` of an `int`: the unit in the last place of the result is
`2 ^ ulpExp 8 |n|` (a `float` carries 24 significant bits; eight halvings bring any 32-bit
magnitude below `2^24`). -/
def ulpExp : Nat → Nat → Nat
  | 0, _ => 0
  | fuel + 1, m => if m < 16777216 then 0 else ulpExp fuel (m / 2) + 1

/-- The value of `(float)n` for an `int n`, which is an integer: `n` rounded to 24 significant
bits, ties to even. -/
def floatOfInt (n : Int) : Int :=
  let m := n.natAbs
  let e := ulpExp 8 m
  let q := m / 2 ^ e
  let r := m % 2 ^ e
  let q1 := if 2 ^ e < 2 * r ∨ (2 * r = 2 ^ e ∧ q % 2 = 1) then q + 1 else q
  Int.sign n * ((q1 * 2 ^ e : Nat) : Int)

/-- The source record `struct Track`; `duration` holds the (integer) value of the `float`. -/
structure Track where
  videoId : Str
  title : Str
  artist : Str
  album : Str
  duration : Int
  thumbnail : Str
  isVideo : Bool
  deriving DecidableEq, Repr

/-- The source record `struct Playlist`. -/
structure Playlist where
  playlistId : Str
  title : Str
  count : Int
  thumbnail : Str
  deriving DecidableEq, Repr

/-- The record built in the body of the loop of `ParseTracks` from one item. -/
def trackOfItem (item : Str) : Track where
  videoId := ExtractString item ['v', 'i', 'd', 'e', 'o', 'I', 'd']
  title := ExtractString item ['t', 'i', 't', 'l', 'e']
  artist := ExtractString item ['a', 'r', 't', 'i', 's', 't']
  album := ExtractString item ['a', 'l', 'b', 'u', 'm']
  duration := floatOfInt (ExtractInt item ['d', 'u', 'r', 'a', 't', 'i', 'o', 'n'])
  thumbnail := ExtractString item ['t', 'h', 'u', 'm', 'b', 'n', 'a', 'i', 'l']
  isVideo := ExtractBool item ['i', 's', 'V', 'i', 'd', 'e', 'o']

/-- The source function `YouTubeMusicPlugin::ParseTracks`. -/
def ParseTracks (json : Str) : List Track :=
  (ExtractArray json).foldl
    (fun tracks item =>
      let track := trackOfItem item
      if track.videoId ≠ [] ∧ track.title ≠ [] then tracks ++ [track] else tracks)
    []

/-- The record built in the body of the loop of `ParsePlaylists` from one item. -/
def playlistOfItem (item : Str) : Playlist where
  playlistId := ExtractString item ['p', 'l', 'a', 'y', 'l', 'i', 's', 't', 'I', 'd']
  title := ExtractString item ['t', 'i', 't', 'l', 'e']
  count := ExtractInt item ['c', 'o', 'u', 'n', 't']
  thumbnail := ExtractString item ['t', 'h', 'u', 'm', 'b', 'n', 'a', 'i', 'l']

/-- The source function `YouTubeMusicPlugin::ParsePlaylists`. -/
def ParsePlaylists (json : Str) : List Playlist :=
  (ExtractArray json).foldl
    (fun playlists item =>
      let playlist := playlistOfItem item
      if playlist.playlistId ≠ [] ∧ playlist.title ≠ [] then playlists ++ [playlist]
      else playlists)
    []

/-! ## `UrlEncode` -/

/-- One uppercase hexadecimal digit. -/
def hexDigitUpper (d : Nat) : Char :=
  if d < 10 then Char.ofNat (48 + d) else Char.ofNat (55 + d)

/-- Digits of `n` in base 16, most significant first, in front of `acc`. -/
def hexUpperAux : Nat → Nat → Str → Str
  | 0, _, acc => acc
  | fuel + 1, n, acc =>
    if n < 16 then hexDigitUpper n :: acc
    else hexUpperAux fuel (n / 16) (hexDigitUpper (n % 16) :: acc)

/-- What `<< std::hex << std::uppercase << n` prints for `n ≥ 0`. -/
def hexUpper (n : Nat) : Str :=
  hexUpperAux (n + 1) n []

/-- The effect of `std::setw(2)` with fill character `'0'` on the next output. -/
def setw2 (s : Str) : Str :=
  List.replicate (2 - s.length) '0' ++ s

/-- What one character of the input adds to the stream in `UrlEncode`. -/
def UrlEncodeChar (c : Char) : Str :=
  if isalnum c || c = '-' || c = '_' || c = '.' || c = '~' then [c]
  else if c = ' ' then ['+']
  else '%' :: setw2 (hexUpper (c.toNat % 256))

/-- The source function `YouTubeMusicPlugin::UrlEncode`. -/
def UrlEncode (value : Str) : Str :=
  value.foldl (fun escaped c => escaped ++ UrlEncodeChar c) []

/-! ## `GetStreamUrl` -/

/-- The two results used by the plugin. -/
inductive HRESULT where
  | S_OK
  | E_FAIL
  deriving DecidableEq, Repr

/-- The text a `const char*` obtained by `c_str()` denotes: the bytes before the first NUL. -/
def c_str (s : Str) : Str :=
  s.takeWhile (fun c => c ≠ Char.ofNat 0)

/-- Outcome of `GetStreamUrl`: the result and the out-parameters `url` and `errorMessage`
(`none` when the call does not assign them). -/
structure StreamUrlOutcome where
  hr : HRESULT
  url : Option Str
  errorMessage : Option Str
  deriving DecidableEq, Repr

/-- The source function `YouTubeMusicPlugin::GetStreamUrl`, given what `EnsureBackendRunning()`
returned and the body `httpClient.Get("/get_url?id=" + uniqueId)` returns. -/
def GetStreamUrl (ensureBackendRunning : Bool) (response : Str) : StreamUrlOutcome :=
  if !ensureBackendRunning then
    ⟨.E_FAIL, none, some "Backend not available".toList⟩
  else if response = [] then
    ⟨.E_FAIL, none, some "Failed to get stream URL".toList⟩
  else
    let streamUrl0 := ExtractString response ['s', 't', 'r', 'e', 'a', 'm', 'U', 'r', 'l']
    let streamUrl := if streamUrl0 = [] then ExtractString response ['u', 'r', 'l'] else streamUrl0
    if streamUrl = [] then
      let detail := ExtractString response ['d', 'e', 't', 'a', 'i', 'l']
      ⟨.E_FAIL, none,
        some (if detail = [] then "Stream URL not available".toList else c_str detail)⟩
    else
      ⟨.S_OK, some (c_str streamUrl), none⟩

/-! ## The extractor with every bound checked

The same four functions, written so that each `substr`, `compare`, `operator[]` and each
`size_t` subtraction reports a fault when its operands are out of bounds. -/

/-- What can go wrong in a `std::string` operation. -/
inductive Fault where
  | out_of_range
  | index_past_end
  | size_underflow
  deriving DecidableEq, Repr

/-- The call `json.substr(pos, n)`: throws `std::out_of_range` when `pos > json.size()`. -/
def substrC (json : Str) (pos n : Nat) : Except Fault Str :=
  if pos ≤ json.length then .ok ((json.drop pos).take n) else .error .out_of_range

/-- The test `json.compare(pos, n, lit) == 0`: throws `std::out_of_range` when
`pos > json.size()`. -/
def compareEqC (json : Str) (pos n : Nat) (lit : Str) : Except Fault Bool :=
  if pos ≤ json.length then .ok ((json.drop pos).take n == lit) else .error .out_of_range

/-- The read `json[i]`, defined for `i < json.size()`. -/
def charAtC (json : Str) (i : Nat) : Except Fault Char :=
  match json.get? i with
  | some c => .ok c
  | none => .error .index_past_end

/-- The `size_t` subtraction `a - b`, which wraps around when `a < b`. -/
def subC (a b : Nat) : Except Fault Nat :=
  if b ≤ a then .ok (a - b) else .error .size_underflow

/-- Checked form of `ExtractString`. -/
def ExtractStringC (json key : Str) : Except Fault Str :=
  let searchKey1 := ['"'] ++ key ++ ['"', ':', '"']
  let searchKey2 := ['"'] ++ key ++ ['"', ':', ' ', '"']
  let pos1 := find json searchKey1 0
  let searchKey := if pos1 = none then searchKey2 else searchKey1
  let pos0 := if pos1 = none then find json searchKey2 0 else pos1
  match pos0 with
  | none => .ok []
  | some p =>
    let pos := p + searchKey.length
    match find json ['"'] pos with
    | none => .ok []
    | some endPos => do
      let n ← subC endPos pos
      substrC json pos n

/-- Checked form of `ExtractInt`; the `try`/`catch (...)` turns both exceptions of `stoi`
into 0. -/
def ExtractIntC (json key : Str) : Except Fault Int :=
  let searchKey1 := ['"'] ++ key ++ ['"', ':']
  let searchKey2 := ['"'] ++ key ++ ['"', ':', ' ']
  let pos1 := find json searchKey1 0
  let searchKey := if pos1 = none then searchKey2 else searchKey1
  let pos0 := if pos1 = none then find json searchKey2 0 else pos1
  match pos0 with
  | none => .ok 0
  | some p =>
    let pos := p + searchKey.length
    match find_first_of json [',', '}', '\n'] pos with
    | none => .ok 0
    | some endPos => do
      let n ← subC endPos pos
      let numStr ← substrC json pos n
      match stoi numStr with
      | .ok v => .ok v
      | .error _ => .ok 0

/-- Checked form of the white space loop of `ExtractBool`, with `fuel` iterations allowed. -/
def skipSpaceC (json : Str) : Nat → Nat → Except Fault Nat
  | 0, pos => .ok pos
  | fuel + 1, pos =>
    if pos < json.length then do
      let c ← charAtC json pos
      if isspace c then skipSpaceC json fuel (pos + 1) else .ok pos
    else .ok pos

/-- Checked form of `ExtractBool`. -/
def ExtractBoolC (json key : Str) : Except Fault Bool :=
  let searchKey := ['"'] ++ key ++ ['"', ':']
  let quoted : Except Fault Bool := do
    let value ← ExtractStringC json key
    .ok (if value ≠ [] then value = ['t', 'r', 'u', 'e'] || value = ['T', 'r', 'u', 'e']
      else false)
  match find json searchKey 0 with
  | some p => do
    let pos ← skipSpaceC json (json.length + 1) (p + searchKey.length)
    if ← compareEqC json pos 4 ['t', 'r', 'u', 'e'] then .ok true
    else if ← compareEqC json pos 5 ['f', 'a', 'l', 's', 'e'] then .ok false
    else quoted
  | none => quoted

/-- Checked form of the loop of `ExtractArray`. -/
def ExtractArrayLoopC (json : Str) : Nat → Nat → Int → Nat → List Str → Except Fault (List Str)
  | 0, _, _, _, items => .ok items
  | n + 1, i, braceLevel, itemStart, items => do
    let c ← charAtC json i
    if c = '{' then
      ExtractArrayLoopC json n (i + 1) (braceLevel + 1) itemStart items
    else if c = '}' then
      if braceLevel - 1 = 0 then do
        let len ← subC i itemStart
        let item ← substrC json itemStart (len + 1)
        ExtractArrayLoopC json n (i + 1) (braceLevel - 1) (i + 2) (items ++ [item])
      else
        ExtractArrayLoopC json n (i + 1) (braceLevel - 1) itemStart items
    else
      ExtractArrayLoopC json n (i + 1) braceLevel itemStart items

/-- Checked form of `ExtractArray`. -/
def ExtractArrayC (json : Str) : Except Fault (List Str) :=
  match find json ['['] 0, rfind json ']' with
  | some start, some end_ =>
    ExtractArrayLoopC json (end_ - (start + 1)) (start + 1) 0 (start + 1) []
  | _, _ => .ok []

/-! ## Specification vocabulary -/

/-- The text `pat` first occurs in `doc` at index `p`. -/
def FirstOccurrence (pat doc : Str) (p : Nat) : Prop :=
  p ≤ doc.length ∧ pat <+: doc.drop p ∧ ∀ q < p, ¬ pat <+: doc.drop q

instance (pat doc : Str) (p : Nat) : Decidable (FirstOccurrence pat doc p) := by
  unfold FirstOccurrence
  infer_instance

/-- Uppercase hexadecimal digit number `d`, as the claim on `UrlEncode` words it. -/
def specHexDigit (d : Nat) : Char :=
  ['0', '1', '2', '3', '4', '5', '6', '7', '8', '9', 'A', 'B', 'C', 'D', 'E', 'F'].getD d '0'

/-- The encoding of one byte as the claim on `UrlEncode` words it: the byte itself when it is an
ASCII letter, an ASCII digit or one of `-`, `_`, `.`, `~`; `+` for a space; otherwise `%` and
the two uppercase hexadecimal digits of its value. -/
def UrlEncodeSpecChar (c : Char) : Str :=
  if ('a' ≤ c ∧ c ≤ 'z') ∨ ('A' ≤ c ∧ c ≤ 'Z') ∨ ('0' ≤ c ∧ c ≤ '9') ∨
      c = '-' ∨ c = '_' ∨ c = '.' ∨ c = '~' then [c]
  else if c = ' ' then ['+']
  else ['%', specHexDigit (c.toNat / 16), specHexDigit (c.toNat % 16)]

/-- The encoding of a byte string as the claim on `UrlEncode` words it: the encodings of its
bytes, in order. -/
def UrlEncodeSpec : Str → Str
  | [] => []
  | c :: cs => UrlEncodeSpecChar c ++ UrlEncodeSpec cs

/-- The text `"k":`, the key in double quotes followed by a colon. -/
abbrev keyColon (k : Str) : Str := ['"'] ++ k ++ ['"', ':']

/-- The opening pattern `"k":"` (no space after the colon). -/
abbrev keyColonQuote (k : Str) : Str := ['"'] ++ k ++ ['"', ':', '"']

/-- The opening pattern `"k": "` (one space after the colon). -/
abbrev keyColonSpaceQuote (k : Str) : Str := ['"'] ++ k ++ ['"', ':', ' ', '"']

/-- The text of `rest` up to its first double quote, escaped or not; empty when `rest` holds no
double quote. -/
def textUpToQuote (rest : Str) : Str :=
  if '"' ∈ rest then rest.takeWhile (fun c => c ≠ '"') else []

/-- The text of `rest` up to its first unescaped double quote, as the claim on `ExtractString`
words it: a backslash escapes the character after it, and the first double quote that is not
escaped closes the value (`none` when there is none). -/
def specValueUpToUnescapedQuote : Str → Option Str
  | [] => none
  | '\\' :: c :: rest => (specValueUpToUnescapedQuote rest).map fun v => '\\' :: c :: v
  | '"' :: _ => some []
  | c :: rest => (specValueUpToUnescapedQuote rest).map fun v => c :: v

/-- Decimal notation of an integer: a minus sign for a negative one, then the decimal digits of
its magnitude. -/
def decimalInt (n : Int) : Str :=
  if n < 0 then '-' :: Nat.toDigits 10 n.natAbs else Nat.toDigits 10 n.natAbs

/-- A field value of a flat JSON object: a string, an integer or a boolean. -/
inductive JVal where
  | str (s : Str)
  | int (n : Int)
  | bool (b : Bool)
  deriving DecidableEq, Repr

/-- A flat JSON object: its fields, in order, as key and value. -/
abbrev JObj := List (Str × JVal)

/-- Compact JSON text of a field value; a string is written as it is between double quotes. -/
def renderVal : JVal → Str
  | .str s => ['"'] ++ s ++ ['"']
  | .int n => decimalInt n
  | .bool b => if b then ['t', 'r', 'u', 'e'] else ['f', 'a', 'l', 's', 'e']

/-- Compact JSON text of a field: `"key":value`. -/
def renderField (f : Str × JVal) : Str :=
  ['"'] ++ f.1 ++ ['"', ':'] ++ renderVal f.2

/-- Compact JSON text of a flat object: `{field,field,...}`. -/
def renderObj (o : JObj) : Str :=
  ['{'] ++ [','].intercalate (o.map renderField) ++ ['}']

/-- Compact JSON text of an array of flat objects: `[object,object,...]`. -/
def renderArr (os : List JObj) : Str :=
  ['['] ++ [','].intercalate (os.map renderObj) ++ [']']

/-- A text that needs no escaping inside a JSON string and holds no brace. -/
def PlainText (s : Str) : Prop :=
  ∀ c ∈ s, c ≠ '"' ∧ c ≠ '\\' ∧ c ≠ '{' ∧ c ≠ '}'

instance (s : Str) : Decidable (PlainText s) := by
  unfold PlainText
  infer_instance

/-- A plain text that, moreover, holds no colon and no comma. -/
def PlainKey (k : Str) : Prop :=
  PlainText k ∧ ∀ c ∈ k, c ≠ ':' ∧ c ≠ ','

instance (k : Str) : Decidable (PlainKey k) := by
  unfold PlainKey
  infer_instance

/-- A string value is a plain text, an integer value fits the type `int`. -/
def PlainVal : JVal → Prop
  | .str s => PlainText s
  | .int n => -2147483648 ≤ n ∧ n ≤ 2147483647
  | .bool _ => True

instance (v : JVal) : Decidable (PlainVal v) := by
  cases v <;> unfold PlainVal <;> infer_instance

/-- A flat object with pairwise different plain keys and plain values. -/
def PlainObj (o : JObj) : Prop :=
  (o.map Prod.fst).Nodup ∧ ∀ f ∈ o, PlainKey f.1 ∧ PlainVal f.2

instance (o : JObj) : Decidable (PlainObj o) := by
  unfold PlainObj
  infer_instance

/-- What the extractor for the type of `v` returns for key `k` on `item`, compared with `v`. -/
def ExtractsTo (item k : Str) : JVal → Prop
  | .str s => ExtractString item k = s
  | .int n => ExtractInt item k = n
  | .bool b => ExtractBool item k = b

instance (item k : Str) (v : JVal) : Decidable (ExtractsTo item k v) := by
  cases v <;> unfold ExtractsTo <;> infer_instance

/-- The compact text of the fields `fs`, each followed by a comma. -/
def fieldsBefore (fs : JObj) : Str :=
  fs.flatMap fun g => renderField g ++ [',']

/-- The compact text of the fields `fs`, each preceded by a comma, then the closing brace. -/
def fieldsAfter (fs : JObj) : Str :=
  (fs.flatMap fun g => ',' :: renderField g) ++ ['}']

/-- The loop of `ExtractArray` run over the characters `cs` that `json` holds at the indices
`i`, `i + 1`, ... (the same steps as `ExtractArrayLoop`, reading from a list). -/
def ExtractArrayScan (json : Str) : Str → Nat → Int → Nat → List Str → List Str
  | [], _, _, _, items => items
  | c :: cs, i, braceLevel, itemStart, items =>
    if c = '{' then
      ExtractArrayScan json cs (i + 1) (braceLevel + 1) itemStart items
    else if c = '}' then
      if braceLevel - 1 = 0 then
        ExtractArrayScan json cs (i + 1) (braceLevel - 1) (i + 2)
          (items ++ [substr json itemStart (i - itemStart + 1)])
      else
        ExtractArrayScan json cs (i + 1) (braceLevel - 1) itemStart items
    else
      ExtractArrayScan json cs (i + 1) braceLevel itemStart items

/-- A track record as the backend sends it: id, title, artist and duration in seconds. -/
structure TrackRecord where
  id : Str
  title : Str
  artist : Str
  duration : Nat
  deriving DecidableEq, Repr

/-- The compact text `{"videoId":"<id>","title":"<title>","artist":"<artist>","duration":<duration>}`
of a track record. -/
def renderTrackRecord (r : TrackRecord) : Str :=
  ['{', '"', 'v', 'i', 'd', 'e', 'o', 'I', 'd', '"', ':', '"'] ++ r.id ++
    ['"', ',', '"', 't', 'i', 't', 'l', 'e', '"', ':', '"'] ++ r.title ++
    ['"', ',', '"', 'a', 'r', 't', 'i', 's', 't', '"', ':', '"'] ++ r.artist ++
    ['"', ',', '"', 'd', 'u', 'r', 'a', 't', 'i', 'o', 'n', '"', ':'] ++
    Nat.toDigits 10 r.duration ++ ['}']

/-- The compact text `[record,record,...]` of a list of track records, `[]` for the empty
list. -/
def renderTrackRecords (rs : List TrackRecord) : Str :=
  ['['] ++ [','].intercalate (rs.map renderTrackRecord) ++ [']']

/-- A track record seen as a flat JSON object. -/
def recordObject (r : TrackRecord) : JObj :=
  [(['v', 'i', 'd', 'e', 'o', 'I', 'd'], JVal.str r.id),
    (['t', 'i', 't', 'l', 'e'], JVal.str r.title),
    (['a', 'r', 't', 'i', 's', 't'], JVal.str r.artist),
    (['d', 'u', 'r', 'a', 't', 'i', 'o', 'n'], JVal.int r.duration)]

/-- The Track that the claim on `ParseTracks` expects for a record, its duration converted to
`float`. -/
def recordTrack (r : TrackRecord) : Track where
  videoId := r.id
  title := r.title
  artist := r.artist
  album := []
  duration := floatOfInt r.duration
  thumbnail := []
  isVideo := false

/-- The value of an uppercase hexadecimal digit. -/
def hexVal (c : Char) : Nat :=
  if isdigit c then c.toNat - 48 else c.toNat - 55

/-- The decoding that undoes `UrlEncode`: `%XY` is the byte with hexadecimal digits `X`, `Y`,
`+` is a space, any other character is itself. -/
def UrlDecode : Str → Str
  | [] => []
  | '%' :: h :: l :: rest => Char.ofNat (hexVal h * 16 + hexVal l) :: UrlDecode rest
  | '+' :: rest => ' ' :: UrlDecode rest
  | c :: rest => c :: UrlDecode rest

/-- A character that `UrlEncode` may put out: an ASCII letter, a digit, or one of `-`, `_`,
`.`, `~`, `+`, `%`. -/
def UrlSafe (c : Char) : Prop :=
  ('a' ≤ c ∧ c ≤ 'z') ∨ ('A' ≤ c ∧ c ≤ 'Z') ∨ ('0' ≤ c ∧ c ≤ '9') ∨
    c = '-' ∨ c = '_' ∨ c = '.' ∨ c = '~' ∨ c = '+' ∨ c = '%'

instance (c : Char) : Decidable (UrlSafe c) := by
  unfold UrlSafe
  infer_instance

/-! ## The plugin, its state and the outside world

The plugin acts on the outside world by HTTP requests, by creating the backend process and by
opening a URL; each action is recorded, in order, in `trace`. The outside world is any function
of what has happened so far. Log lines, message boxes, the feedback overlay and the four-second
wait are not recorded. `EnsureBackendRunning` follows the `VDJ_WIN` branch; the other branch
takes the same decisions and stores no process handle. A `const char*` argument is given as
the text it points to. -/

/-- An action of the plugin on the outside world: `httpClient.Get(endpoint)` with the body it
returned, the creation of the backend process with its success, the opening of a URL. -/
inductive Event where
  | get (endpoint body : Str)
  | launch (ok : Bool)
  | openUrl (url : Str)
  deriving DecidableEq, Repr

/-- The outside world: the body a GET returns (empty on any failure), whether `main.py` is
found, whether the process creation succeeds, each given the actions so far. -/
structure Env where
  get : List Event → Str → Str
  scriptExists : List Event → Bool
  launch : List Event → Bool

/-- The members of `class YouTubeMusicPlugin` that the operations read or write
(`pythonProcess` is true for a handle that is not `NULL`), and the actions so far. -/
structure YouTubeMusicPlugin where
  searchResults : List Track
  userPlaylists : List Playlist
  backendRunning : Bool
  pythonProcess : Bool
  authPromptShown : Bool
  trace : List Event
  deriving DecidableEq, Repr

/-- An operation that hands tracks to the host: its result, the tracks passed to
`tracksList->add` in order, and the plugin afterwards. -/
structure TracksOutcome where
  hr : HRESULT
  added : List Track
  plugin : YouTubeMusicPlugin
  deriving DecidableEq, Repr

/-- The arguments of `tracksList->add` for a Track: its strings as C strings. -/
def addArgs (t : Track) : Track where
  videoId := c_str t.videoId
  title := c_str t.title
  artist := c_str t.artist
  album := c_str t.album
  duration := t.duration
  thumbnail := c_str t.thumbnail
  isVideo := t.isVideo

/-- The test of `IsServerAlive` on the body of `GET /`: not empty and holding `"status"`. -/
def isAliveBody (response : Str) : Bool :=
  decide (response ≠ []) && decide (find response ['"', 's', 't', 'a', 't', 'u', 's', '"'] 0 ≠ none)

namespace YouTubeMusicPlugin

/-- The constructor `YouTubeMusicPlugin()`: a fresh plugin. -/
def construct : YouTubeMusicPlugin where
  searchResults := []
  userPlaylists := []
  backendRunning := false
  pythonProcess := false
  authPromptShown := false
  trace := []

/-- The call `httpClient.Get(endpoint)`. -/
def Get (env : Env) (self : YouTubeMusicPlugin) (endpoint : Str) : Str × YouTubeMusicPlugin :=
  (env.get self.trace endpoint,
    { self with trace := self.trace ++ [Event.get endpoint (env.get self.trace endpoint)] })

/-- The call `httpClient.IsServerAlive()`. -/
def IsServerAlive (env : Env) (self : YouTubeMusicPlugin) : Bool × YouTubeMusicPlugin :=
  (isAliveBody (Get env self ['/']).1, (Get env self ['/']).2)

/-- The call `httpClient.IsAuthenticated()`. -/
def IsAuthenticated (env : Env) (self : YouTubeMusicPlugin) : Bool × YouTubeMusicPlugin :=
  let r := Get env self ['/', 'a', 'u', 't', 'h', '_', 's', 't', 'a', 't', 'u', 's']
  (if r.1 = [] then false
    else ExtractBool r.1 ['a', 'u', 't', 'h', 'e', 'n', 't', 'i', 'c', 'a', 't', 'e', 'd'], r.2)

/-- The source function `OpenConfigPageIfNeeded`. -/
def OpenConfigPageIfNeeded (self : YouTubeMusicPlugin) : YouTubeMusicPlugin :=
  if self.authPromptShown then self
  else
    { self with
      authPromptShown := true
      trace := self.trace ++ [Event.openUrl "http://127.0.0.1:8000/config".toList] }

/-- The source function `EnsureAuthUI`. -/
def EnsureAuthUI (env : Env) (self : YouTubeMusicPlugin) : YouTubeMusicPlugin :=
  if (IsAuthenticated env self).1 then (IsAuthenticated env self).2
  else OpenConfigPageIfNeeded (IsAuthenticated env self).2

/-- The part of `EnsureBackendRunning` from the creation of the process on. -/
def launchBackend (env : Env) (self : YouTubeMusicPlugin) : Bool × YouTubeMusicPlugin :=
  if env.launch self.trace then
    let started : YouTubeMusicPlugin :=
      { self with pythonProcess := true, trace := self.trace ++ [Event.launch true] }
    ((IsServerAlive env started).1,
      { (IsServerAlive env started).2 with backendRunning := (IsServerAlive env started).1 })
  else
    (false, { self with trace := self.trace ++ [Event.launch false] })

/-- The source function `EnsureBackendRunning`; `checked` is the outcome of the test
`backendRunning && httpClient.IsServerAlive()`, which probes only when `backendRunning` is
set. -/
def EnsureBackendRunning (env : Env) (self : YouTubeMusicPlugin) : Bool × YouTubeMusicPlugin :=
  let checked := if self.backendRunning then IsServerAlive env self else (false, self)
  if checked.1 then (true, checked.2)
  else if env.scriptExists checked.2.trace then launchBackend env checked.2
  else (false, checked.2)

/-- The source function `OnLoad`. -/
def OnLoad (env : Env) (self : YouTubeMusicPlugin) : HRESULT × YouTubeMusicPlugin :=
  if (EnsureBackendRunning env self).1 then
    (.S_OK, EnsureAuthUI env (EnsureBackendRunning env self).2)
  else (.S_OK, (EnsureBackendRunning env self).2)

/-- The source function `OnSearch`. -/
def OnSearch (env : Env) (self : YouTubeMusicPlugin) (search : Str) : TracksOutcome :=
  if (EnsureBackendRunning env self).1 then
    let r := Get env (EnsureBackendRunning env self).2
      (['/', 's', 'e', 'a', 'r', 'c', 'h', '?', 'q', '='] ++ UrlEncode search)
    if r.1 = [] then ⟨.E_FAIL, [], r.2⟩
    else ⟨.S_OK, (ParseTracks r.1).map addArgs, { r.2 with searchResults := ParseTracks r.1 }⟩
  else ⟨.E_FAIL, [], (EnsureBackendRunning env self).2⟩

/-- The source function `GetStreamUrl` with its calls to the outside world. -/
def GetStreamUrl (env : Env) (self : YouTubeMusicPlugin) (uniqueId : Str) :
    StreamUrlOutcome × YouTubeMusicPlugin :=
  if (EnsureBackendRunning env self).1 then
    let r := Get env (EnsureBackendRunning env self).2
      (['/', 'g', 'e', 't', '_', 'u', 'r', 'l', '?', 'i', 'd', '='] ++ uniqueId)
    (YTMusic.GetStreamUrl true r.1, r.2)
  else (YTMusic.GetStreamUrl false [], (EnsureBackendRunning env self).2)

/-- The source function `GetFolder`. -/
def GetFolder (env : Env) (self : YouTubeMusicPlugin) (folderUniqueId : Str) : TracksOutcome :=
  if (EnsureBackendRunning env self).1 then
    let ensured := (EnsureBackendRunning env self).2
    if folderUniqueId = ['s', 'e', 'a', 'r', 'c', 'h'] then
      ⟨.S_OK, ensured.searchResults.map addArgs, ensured⟩
    else if folderUniqueId = ['p', 'l', 'a', 'y', 'l', 'i', 's', 't', 's'] then
      let r := Get env ensured ['/', 'p', 'l', 'a', 'y', 'l', 'i', 's', 't', 's']
      if r.1 = [] then ⟨.E_FAIL, [], r.2⟩
      else ⟨.S_OK, [], { r.2 with userPlaylists := ParsePlaylists r.1 }⟩
    else
      let r := Get env ensured
        (['/', 'p', 'l', 'a', 'y', 'l', 'i', 's', 't', '_', 't', 'r', 'a', 'c', 'k', 's', '?',
          'i', 'd', '='] ++ folderUniqueId)
      if r.1 = [] then ⟨.E_FAIL, [], r.2⟩
      else ⟨.S_OK, (ParseTracks r.1).map addArgs, r.2⟩
  else ⟨.E_FAIL, [], (EnsureBackendRunning env self).2⟩

end YouTubeMusicPlugin

/-- The actions performed between the plugin states `before` and `after`. -/
def newEvents (before after : YouTubeMusicPlugin) : List Event :=
  after.trace.drop before.trace.length

/-- A catalog request: a GET of `/search`, `/get_url`, `/playlists` or `/playlist_tracks`. -/
def isCatalogRequest : Event → Bool
  | .get endpoint _ =>
    ['/', 's', 'e', 'a', 'r', 'c', 'h'].isPrefixOf endpoint ||
    ['/', 'g', 'e', 't', '_', 'u', 'r', 'l'].isPrefixOf endpoint ||
    ['/', 'p', 'l', 'a', 'y', 'l', 'i', 's', 't', 's'].isPrefixOf endpoint ||
    ['/', 'p', 'l', 'a', 'y', 'l', 'i', 's', 't', '_', 't', 'r', 'a', 'c', 'k', 's'].isPrefixOf
      endpoint
  | _ => false

/-- A liveness probe that succeeded: a GET of `/` whose body passes the test of
`IsServerAlive`. -/
def isAliveProbe : Event → Bool
  | .get endpoint body => decide (endpoint = ['/']) && isAliveBody body
  | _ => false

/-- The creation of a backend process that succeeded. -/
def isLaunch : Event → Bool
  | .launch ok => ok
  | _ => false

/-- The opening of a URL. -/
def isOpenUrl : Event → Bool
  | .openUrl _ => true
  | _ => false

/-- An operation called on the plugin: one of the entry points, or `EnsureAuthUI` itself. -/
inductive Operation where
  | onLoad
  | onSearch (search : Str)
  | getStreamUrl (uniqueId : Str)
  | getFolder (folderUniqueId : Str)
  | ensureAuthUI
  deriving DecidableEq, Repr

/-- The plugin after one operation. -/
def perform (env : Env) (self : YouTubeMusicPlugin) : Operation → YouTubeMusicPlugin
  | .onLoad => (YouTubeMusicPlugin.OnLoad env self).2
  | .onSearch search => (YouTubeMusicPlugin.OnSearch env self search).plugin
  | .getStreamUrl uniqueId => (YouTubeMusicPlugin.GetStreamUrl env self uniqueId).2
  | .getFolder folderUniqueId => (YouTubeMusicPlugin.GetFolder env self folderUniqueId).plugin
  | .ensureAuthUI => YouTubeMusicPlugin.EnsureAuthUI env self

/-- The plugin after a sequence of operations. -/
def performAll (env : Env) (self : YouTubeMusicPlugin) (ops : List Operation) :
    YouTubeMusicPlugin :=
  ops.foldl (perform env) self

/-- The step from `a` to `b` opens no URL and leaves the prompt flag as it was. -/
def Quiet (a b : YouTubeMusicPlugin) : Prop :=
  ∃ new, b.trace = a.trace ++ new ∧ (∀ e ∈ new, isOpenUrl e = false) ∧
    b.authPromptShown = a.authPromptShown

/-- The config page was opened at most once so far, and not at all while the prompt flag is
unset. -/
def PromptedOnce (self : YouTubeMusicPlugin) : Prop :=
  self.trace.countP isOpenUrl ≤ 1 ∧
    (self.authPromptShown = false → self.trace.countP isOpenUrl = 0)

/-! ## Two calls of `EnsureBackendRunning` at once

`EnsureBackendRunning` takes no lock (`dataMutex` is held only around the result caches), so
two calls on one plugin may interleave. A call is cut at its actions on the outside world:
the running check with its probe, the look for `main.py`, the creation of the process, the
probe after the wait. The steps are those of the `VDJ_WIN` branch, each taken as a whole; an
interleaving of such steps is one of the runs the two calls can make. -/

/-- Where a call of `EnsureBackendRunning` stands: before the running check, before the look
for `main.py`, before the creation of the process, before the probe that follows it, or
returned with a result. -/
inductive EnsurePoint where
  | start
  | checkScript
  | launch
  | probe
  | done (result : Bool)
  deriving DecidableEq, Repr

/-- One step of a call of `EnsureBackendRunning` standing at a given point. -/
def ensureStep (env : Env) (self : YouTubeMusicPlugin) :
    EnsurePoint → EnsurePoint × YouTubeMusicPlugin
  | .start =>
    let checked :=
      if self.backendRunning then YouTubeMusicPlugin.IsServerAlive env self else (false, self)
    if checked.1 then (.done true, checked.2) else (.checkScript, checked.2)
  | .checkScript =>
    if env.scriptExists self.trace then (.launch, self) else (.done false, self)
  | .launch =>
    if env.launch self.trace then
      (.probe, { self with pythonProcess := true, trace := self.trace ++ [Event.launch true] })
    else (.done false, { self with trace := self.trace ++ [Event.launch false] })
  | .probe =>
    (.done (YouTubeMusicPlugin.IsServerAlive env self).1,
      { (YouTubeMusicPlugin.IsServerAlive env self).2 with
        backendRunning := (YouTubeMusicPlugin.IsServerAlive env self).1 })
  | .done result => (.done result, self)

/-- Two calls of `EnsureBackendRunning` in progress on one plugin. -/
structure TwoCalls where
  first : EnsurePoint
  second : EnsurePoint
  plugin : YouTubeMusicPlugin
  deriving DecidableEq, Repr

/-- One step of the first call (`false`) or of the second call (`true`). -/
def stepCall (env : Env) (c : TwoCalls) (second : Bool) : TwoCalls :=
  if second then
    { c with second := (ensureStep env c.plugin c.second).1,
             plugin := (ensureStep env c.plugin c.second).2 }
  else
    { c with first := (ensureStep env c.plugin c.first).1,
             plugin := (ensureStep env c.plugin c.first).2 }

/-- The two calls after the steps of a schedule, which names the call that moves next. -/
def runSchedule (env : Env) (c : TwoCalls) (schedule : List Bool) : TwoCalls :=
  schedule.foldl (stepCall env) c

/-- A call that stands before the creation of the process has launched nothing yet; past it,
it has launched at most one process. -/
def launchesDone : EnsurePoint → Nat
  | .start => 0
  | .checkScript => 0
  | .launch => 0
  | .probe => 1
  | .done _ => 1

/-! ## Facts about the `std::string` primitives -/

theorem findAux_eq_some_iff (needle : Str) (s : Str) (i p : Nat) :
    findAux needle s i = some p ↔
      ∃ k, p = i + k ∧ k ≤ s.length ∧ needle <+: s.drop k ∧ ∀ q < k, ¬ needle <+: s.drop q := by
  induction s generalizing i with
  | nil =>
    simp only [findAux, List.isEmpty_iff, List.length_nil, Nat.le_zero, List.drop_nil,
      List.prefix_nil]
    constructor
    · intro h
      split at h
      · rename_i hn
        refine ⟨0, ?_, rfl, hn, fun q hq => absurd hq (Nat.not_lt_zero q)⟩
        simpa using (Option.some.inj h).symm
      · exact absurd h (by simp)
    · rintro ⟨k, hp, hk, hn, -⟩
      subst hk
      simp [hn, hp]
  | cons c cs ih =>
    simp only [findAux, List.isPrefixOf_iff_prefix]
    by_cases hpre : needle <+: c :: cs
    · simp only [hpre, if_true]
      constructor
      · intro h
        refine ⟨0, ?_, Nat.zero_le _, by simpa using hpre, fun q hq => absurd hq (Nat.not_lt_zero q)⟩
        simpa using (Option.some.inj h).symm
      · rintro ⟨k, hp, -, -, hmin⟩
        rcases Nat.eq_zero_or_pos k with hk | hk
        · subst hk; simp [hp]
        · exact absurd (by simpa using hpre) (hmin 0 hk)
    · simp only [hpre, if_false]
      rw [ih]
      constructor
      · rintro ⟨k, hp, hk, hn, hmin⟩
        refine ⟨k + 1, by omega, by simpa using hk, by simpa using hn, ?_⟩
        intro q hq
        rcases q with _ | q
        · simpa using hpre
        · simpa using hmin q (by omega)
      · rintro ⟨k, hp, hk, hn, hmin⟩
        rcases k with _ | k
        · exact absurd (by simpa using hn) hpre
        · refine ⟨k, by omega, by simpa using hk, by simpa using hn, ?_⟩
          intro q hq
          simpa using hmin (q + 1) (by omega)

theorem findAux_eq_none_iff (needle : Str) (s : Str) (i : Nat) :
    findAux needle s i = none ↔ ∀ k ≤ s.length, ¬ needle <+: s.drop k := by
  induction s generalizing i with
  | nil =>
    simp only [findAux, List.isEmpty_iff, List.length_nil, Nat.le_zero, List.drop_nil,
      List.prefix_nil]
    constructor
    · intro h k _ hn
      simp [hn] at h
    · intro h
      have := h 0 rfl
      simp [this]
  | cons c cs ih =>
    simp only [findAux, List.isPrefixOf_iff_prefix]
    by_cases hpre : needle <+: c :: cs
    · simp only [hpre, if_true]
      constructor
      · intro h; exact absurd h (by simp)
      · intro h
        exact absurd (by simpa using hpre) (h 0 (Nat.zero_le _))
    · simp only [hpre, if_false]
      rw [ih]
      constructor
      · intro h k hk
        rcases k with _ | k
        · simpa using hpre
        · simpa using h k (by simpa using hk)
      · intro h k hk
        simpa using h (k + 1) (by simpa using hk)

/-- The call `find(pat, 0)` returns `p` exactly when `pat` first occurs at `p`. -/
theorem find_zero_eq_some_iff (doc pat : Str) (p : Nat) :
    find doc pat 0 = some p ↔ FirstOccurrence pat doc p := by
  unfold find FirstOccurrence
  simp only [Nat.zero_le, if_true, List.drop_zero, findAux_eq_some_iff, Nat.zero_add]
  constructor
  · rintro ⟨k, rfl, hk, hn, hmin⟩
    exact ⟨hk, hn, hmin⟩
  · rintro ⟨hk, hn, hmin⟩
    exact ⟨p, rfl, hk, hn, hmin⟩

theorem infix_iff_prefix_drop (pat doc : Str) :
    pat <:+: doc ↔ ∃ k, k ≤ doc.length ∧ pat <+: doc.drop k := by
  constructor
  · rintro ⟨a, b, h⟩
    refine ⟨a.length, ?_, ?_⟩
    · rw [← h]; simp
    · rw [← h]
      simp [List.append_assoc]
  · rintro ⟨k, _, b, hb⟩
    refine ⟨doc.take k, b, ?_⟩
    rw [List.append_assoc, hb, List.take_append_drop]

/-- The call `find(pat, 0)` returns `npos` exactly when `pat` occurs nowhere. -/
theorem find_zero_eq_none_iff (doc pat : Str) :
    find doc pat 0 = none ↔ ¬ pat <:+: doc := by
  unfold find
  simp only [Nat.zero_le, if_true, List.drop_zero, findAux_eq_none_iff, infix_iff_prefix_drop]
  push_neg
  rfl

theorem find_zero_eq_none_of_prefix (doc a b : Str) (h : ¬ a <:+: doc) :
    find doc (a ++ b) 0 = none := by
  rw [find_zero_eq_none_iff]
  intro hab
  exact h (List.IsInfix.trans (List.infix_append' [] a b) hab)

/-! ## Defaults for an absent key -/

/-- Claim C4: when the text `"k":` occurs nowhere in `doc`, `ExtractString` returns the empty
string, `ExtractInt` returns 0 and `ExtractBool` returns false. -/
theorem absent_key_defaults (doc k : Str) (h : ¬ (['"'] ++ k ++ ['"', ':']) <:+: doc) :
    ExtractString doc k = [] ∧ ExtractInt doc k = 0 ∧ ExtractBool doc k = false := by
  have h0 : find doc (['"'] ++ k ++ ['"', ':']) 0 = none := by
    rw [find_zero_eq_none_iff]; exact h
  have h1 : find doc (['"'] ++ k ++ ['"', ':', '"']) 0 = none := by
    have := find_zero_eq_none_of_prefix doc (['"'] ++ k ++ ['"', ':']) ['"'] h
    simpa using this
  have h2 : find doc (['"'] ++ k ++ ['"', ':', ' ', '"']) 0 = none := by
    have := find_zero_eq_none_of_prefix doc (['"'] ++ k ++ ['"', ':']) [' ', '"'] h
    simpa using this
  have h3 : find doc (['"'] ++ k ++ ['"', ':', ' ']) 0 = none := by
    have := find_zero_eq_none_of_prefix doc (['"'] ++ k ++ ['"', ':']) [' '] h
    simpa using this
  have hs : ExtractString doc k = [] := by
    simp only [ExtractString, h1, h2, if_true]
  refine ⟨hs, ?_, ?_⟩
  · simp only [ExtractInt, h0, h3, if_true]
  · simp only [ExtractBool, ExtractBoolQuoted, h0, hs]
    simp

/-- Claim C4 at the document `{"a":1}` and the key `b`. -/
theorem absent_key_defaults_witness :
    ExtractString "\x7b\"a\":1\x7d".toList "b".toList = [] ∧
      ExtractInt "\x7b\"a\":1\x7d".toList "b".toList = 0 ∧
      ExtractBool "\x7b\"a\":1\x7d".toList "b".toList = false :=
  absent_key_defaults "\x7b\"a\":1\x7d".toList "b".toList (by decide)

/-! ## `GetStreamUrl` -/

theorem c_str_eq_self (v : Str) (h : Char.ofNat 0 ∉ v) : c_str v = v := by
  unfold c_str
  rw [List.takeWhile_eq_self_iff]
  intro c hc
  have : c ≠ Char.ofNat 0 := fun e => h (e ▸ hc)
  simpa using this

/-- Claim C1, as stated, fails: for the body `{"streamUrl":"a<NUL>b"}` the extracted value is
the three bytes `a`, NUL, `b`, and the call succeeds with the one byte `a`. -/
theorem getStreamUrl_value_cut_at_nul :
    ExtractString "\x7b\"streamUrl\":\"a\x00b\"\x7d".toList "streamUrl".toList
        = ['a', Char.ofNat 0, 'b'] ∧
      GetStreamUrl true "\x7b\"streamUrl\":\"a\x00b\"\x7d".toList
        = ⟨.S_OK, some ['a'], none⟩ ∧
      (GetStreamUrl true "\x7b\"streamUrl\":\"a\x00b\"\x7d".toList).url
        ≠ some (ExtractString "\x7b\"streamUrl\":\"a\x00b\"\x7d".toList "streamUrl".toList) := by
  decide

/-- Claim C1, amended: with the backend ensured and a non-empty body, `GetStreamUrl` succeeds
with the `streamUrl` value when it is non-empty, otherwise with the `url` value when it is
non-empty, otherwise fails with the `detail` value when it is non-empty and with
"Stream URL not available" when it is empty; each value is handed over as a C string, that is
cut at its first NUL byte, and is the value itself when it holds no NUL byte. -/
theorem getStreamUrl_priority (response : Str) (hne : response ≠ []) :
    (ExtractString response "streamUrl".toList ≠ [] →
      GetStreamUrl true response
        = ⟨.S_OK, some (c_str (ExtractString response "streamUrl".toList)), none⟩) ∧
    (ExtractString response "streamUrl".toList = [] →
      ExtractString response "url".toList ≠ [] →
      GetStreamUrl true response
        = ⟨.S_OK, some (c_str (ExtractString response "url".toList)), none⟩) ∧
    (ExtractString response "streamUrl".toList = [] →
      ExtractString response "url".toList = [] →
      ExtractString response "detail".toList ≠ [] →
      GetStreamUrl true response
        = ⟨.E_FAIL, none, some (c_str (ExtractString response "detail".toList))⟩) ∧
    (ExtractString response "streamUrl".toList = [] →
      ExtractString response "url".toList = [] →
      ExtractString response "detail".toList = [] →
      GetStreamUrl true response
        = ⟨.E_FAIL, none, some "Stream URL not available".toList⟩) ∧
    (∀ v : Str, Char.ofNat 0 ∉ v → c_str v = v) := by
  have e1 : "streamUrl".toList = ['s', 't', 'r', 'e', 'a', 'm', 'U', 'r', 'l'] := rfl
  have e2 : "url".toList = ['u', 'r', 'l'] := rfl
  have e3 : "detail".toList = ['d', 'e', 't', 'a', 'i', 'l'] := rfl
  rw [e1, e2, e3]
  refine ⟨?_, ?_, ?_, ?_, c_str_eq_self⟩
  · intro h1
    simp [GetStreamUrl, hne, h1]
  · intro h1 h2
    simp [GetStreamUrl, hne, h1, h2]
  · intro h1 h2 h3
    simp [GetStreamUrl, hne, h1, h2, h3]
  · intro h1 h2 h3
    simp [GetStreamUrl, hne, h1, h2, h3]

/-- Claim C1 at the body `{"detail":"Video unavailable"}`: failure with the message
"Video unavailable". -/
theorem getStreamUrl_priority_witness :
    GetStreamUrl true "\x7b\"detail\":\"Video unavailable\"\x7d".toList
      = ⟨.E_FAIL, none, some "Video unavailable".toList⟩ :=
  ((getStreamUrl_priority "\x7b\"detail\":\"Video unavailable\"\x7d".toList
    (by decide)).2.2.1 (by decide) (by decide) (by decide)).trans (by decide)

/-! ## `ParseTracks` and `ParsePlaylists` keep exactly the complete records -/

theorem foldl_append_if {α β : Type} (f : α → β) (p : α → Prop) [DecidablePred p]
    (l : List α) (acc : List β) :
    l.foldl (fun acc x => if p x then acc ++ [f x] else acc) acc
      = acc ++ (l.filter (fun x => decide (p x))).map f := by
  induction l generalizing acc with
  | nil => simp
  | cons x xs ih =>
    simp only [List.foldl_cons, ih, List.filter_cons]
    by_cases h : p x <;> simp [h]

theorem ParseTracks_eq (json : Str) :
    ParseTracks json
      = ((ExtractArray json).filter fun item =>
          decide (ExtractString item "videoId".toList ≠ [] ∧
            ExtractString item "title".toList ≠ [])).map trackOfItem := by
  unfold ParseTracks
  exact (foldl_append_if trackOfItem
    (fun item => (trackOfItem item).videoId ≠ [] ∧ (trackOfItem item).title ≠ [])
    (ExtractArray json) []).trans (by simp; rfl)

theorem ParsePlaylists_eq (json : Str) :
    ParsePlaylists json
      = ((ExtractArray json).filter fun item =>
          decide (ExtractString item "playlistId".toList ≠ [] ∧
            ExtractString item "title".toList ≠ [])).map playlistOfItem := by
  unfold ParsePlaylists
  exact (foldl_append_if playlistOfItem
    (fun item => (playlistOfItem item).playlistId ≠ [] ∧ (playlistOfItem item).title ≠ [])
    (ExtractArray json) []).trans (by simp; rfl)

/-- Claim C2: every Track returned by `ParseTracks` has a non-empty videoId and title, every
Playlist returned by `ParsePlaylists` has a non-empty playlistId and title, and each list is,
in order, the records built from exactly those items of `ExtractArray` whose identifier and
title both extract non-empty. -/
theorem parse_keeps_exactly_complete_records (json : Str) :
    (∀ t ∈ ParseTracks json, t.videoId ≠ [] ∧ t.title ≠ []) ∧
    ParseTracks json
      = ((ExtractArray json).filter fun item =>
          decide (ExtractString item "videoId".toList ≠ [] ∧
            ExtractString item "title".toList ≠ [])).map trackOfItem ∧
    (∀ p ∈ ParsePlaylists json, p.playlistId ≠ [] ∧ p.title ≠ []) ∧
    ParsePlaylists json
      = ((ExtractArray json).filter fun item =>
          decide (ExtractString item "playlistId".toList ≠ [] ∧
            ExtractString item "title".toList ≠ [])).map playlistOfItem := by
  refine ⟨?_, ParseTracks_eq json, ?_, ParsePlaylists_eq json⟩
  · intro t ht
    rw [ParseTracks_eq, List.mem_map] at ht
    obtain ⟨item, hitem, rfl⟩ := ht
    have := (List.mem_filter.mp hitem).2
    simpa using this
  · intro p hp
    rw [ParsePlaylists_eq, List.mem_map] at hp
    obtain ⟨item, hitem, rfl⟩ := hp
    have := (List.mem_filter.mp hitem).2
    simpa using this

/-! ## `UrlEncode` -/

set_option maxRecDepth 100000 in
theorem setw2_hexUpper_byte : ∀ v < 256,
    setw2 (hexUpper v) = [specHexDigit (v / 16), specHexDigit (v % 16)] := by
  decide

theorem char_le_iff (a b : Char) : a ≤ b ↔ a.toNat ≤ b.toNat := Iff.rfl

theorem isalnum_iff (c : Char) :
    isalnum c = true ↔ ('a' ≤ c ∧ c ≤ 'z') ∨ ('A' ≤ c ∧ c ≤ 'Z') ∨ ('0' ≤ c ∧ c ≤ '9') := by
  simp only [char_le_iff, isalnum, isdigit, Bool.or_eq_true, Bool.and_eq_true, decide_eq_true_eq]
  have e1 : 'a'.toNat = 97 := rfl
  have e2 : 'z'.toNat = 122 := rfl
  have e3 : 'A'.toNat = 65 := rfl
  have e4 : 'Z'.toNat = 90 := rfl
  have e5 : '0'.toNat = 48 := rfl
  have e6 : '9'.toNat = 57 := rfl
  rw [e1, e2, e3, e4, e5, e6]
  tauto

theorem UrlEncodeChar_eq_spec (c : Char) (hc : c.toNat < 256) :
    UrlEncodeChar c = UrlEncodeSpecChar c := by
  unfold UrlEncodeChar UrlEncodeSpecChar
  have hmod : c.toNat % 256 = c.toNat := Nat.mod_eq_of_lt hc
  rw [hmod, setw2_hexUpper_byte c.toNat hc]
  by_cases h : ('a' ≤ c ∧ c ≤ 'z') ∨ ('A' ≤ c ∧ c ≤ 'Z') ∨ ('0' ≤ c ∧ c ≤ '9') ∨
      c = '-' ∨ c = '_' ∨ c = '.' ∨ c = '~'
  · have h' : (isalnum c || decide (c = '-') || decide (c = '_') || decide (c = '.')
        || decide (c = '~')) = true := by
      simp only [Bool.or_eq_true, decide_eq_true_eq, isalnum_iff]
      tauto
    rw [if_pos h, if_pos h']
  · have h' : ¬ (isalnum c || decide (c = '-') || decide (c = '_') || decide (c = '.')
        || decide (c = '~')) = true := by
      simp only [Bool.or_eq_true, decide_eq_true_eq, isalnum_iff]
      tauto
    rw [if_neg h, if_neg h']

theorem UrlEncode_foldl (s acc : Str) :
    s.foldl (fun escaped c => escaped ++ UrlEncodeChar c) acc
      = acc ++ s.foldl (fun escaped c => escaped ++ UrlEncodeChar c) [] := by
  induction s generalizing acc with
  | nil => simp
  | cons c cs ih =>
    simp only [List.foldl_cons, List.nil_append]
    rw [ih (acc ++ UrlEncodeChar c), ih (UrlEncodeChar c), List.append_assoc]

theorem UrlEncode_cons (c : Char) (cs : Str) :
    UrlEncode (c :: cs) = UrlEncodeChar c ++ UrlEncode cs := by
  unfold UrlEncode
  simp only [List.foldl_cons, List.nil_append]
  exact UrlEncode_foldl cs (UrlEncodeChar c)

/-- Claim C3: for every byte string, `UrlEncode` is the concatenation, byte by byte in order,
of the byte itself for an ASCII letter, digit or one of `-`, `_`, `.`, `~`, of `+` for a space,
and otherwise of `%` followed by the two uppercase hexadecimal digits of the byte's value. -/
theorem UrlEncode_eq_spec (s : Str) (hbytes : ∀ c ∈ s, c.toNat < 256) :
    UrlEncode s = UrlEncodeSpec s := by
  induction s with
  | nil => rfl
  | cons c cs ih =>
    rw [UrlEncode_cons, UrlEncodeSpec, UrlEncodeChar_eq_spec c (hbytes c (List.mem_cons_self c cs)),
      ih (fun d hd => hbytes d (List.mem_cons_of_mem c hd))]

/-- Claim C3 at the query `a b&<0xE9>c`, which encodes to `a+b%26%E9c`. -/
theorem UrlEncode_eq_spec_witness :
    UrlEncode ['a', ' ', 'b', '&', Char.ofNat 233, 'c'] = "a+b%26%E9c".toList :=
  (UrlEncode_eq_spec ['a', ' ', 'b', '&', Char.ofNat 233, 'c'] (by decide)).trans (by decide)

/-! ## What `ExtractString` reads -/

theorem findAux_singleton (c : Char) (s : Str) (i : Nat) :
    findAux [c] s i
      = if c ∈ s then some (i + (s.takeWhile (fun x => x ≠ c)).length) else none := by
  induction s generalizing i with
  | nil => simp [findAux]
  | cons x xs ih =>
    simp only [findAux, List.isPrefixOf_iff_prefix, List.cons_prefix_cons, List.nil_prefix,
      and_true, List.mem_cons, List.takeWhile_cons]
    by_cases hx : c = x
    · subst hx; simp
    · have hx' : x ≠ c := fun e => hx e.symm
      simp only [hx, if_false, false_or, ih, ne_eq, hx', not_false_eq_true, decide_True, if_true,
        List.length_cons]
      split
      · simp; omega
      · simp

theorem take_length_takeWhile (f : Char → Bool) (s : Str) :
    s.take (s.takeWhile f).length = s.takeWhile f := by
  induction s with
  | nil => simp
  | cons x xs ih =>
    simp only [List.takeWhile_cons]
    split <;> simp [ih]

theorem drop_length_takeWhile (f : Char → Bool) (s : Str) :
    s.drop (s.takeWhile f).length = s.dropWhile f := by
  induction s with
  | nil => simp
  | cons x xs ih =>
    simp only [List.takeWhile_cons, List.dropWhile_cons]
    split <;> simp [ih]

/-- The closing-quote search and the `substr` of `ExtractString`, from position `pos`. -/
theorem find_quote_substr (json : Str) (pos : Nat) (hpos : pos ≤ json.length) :
    (match find json ['"'] pos with
      | none => []
      | some endPos => substr json pos (endPos - pos)) = textUpToQuote (json.drop pos) := by
  unfold find textUpToQuote substr
  rw [if_pos hpos, findAux_singleton]
  by_cases h : '"' ∈ json.drop pos
  · simp only [h, if_true, Nat.add_sub_cancel_left]
    exact take_length_takeWhile _ _
  · simp only [h, if_false]

theorem FirstOccurrence.add_length_le {pat doc : Str} {p : Nat}
    (h : FirstOccurrence pat doc p) : p + pat.length ≤ doc.length := by
  obtain ⟨hp, hpre, -⟩ := h
  have := hpre.length_le
  simp only [List.length_drop] at this
  omega

/-- When the no-space pattern occurs, `ExtractString` reads at its first occurrence. -/
theorem ExtractString_of_first (doc k : Str) (p : Nat)
    (h : FirstOccurrence (keyColonQuote k) doc p) :
    ExtractString doc k = textUpToQuote (doc.drop (p + (keyColonQuote k).length)) := by
  have hf := (find_zero_eq_some_iff doc _ p).mpr h
  have hlen := h.add_length_le
  simp only [keyColonQuote] at hf hlen ⊢
  simp only [ExtractString, hf]
  exact find_quote_substr doc _ hlen

/-- When the no-space pattern occurs nowhere, `ExtractString` reads at the first occurrence of
the one-space pattern. -/
theorem ExtractString_of_second (doc k : Str) (p : Nat)
    (h1 : ¬ keyColonQuote k <:+: doc) (h : FirstOccurrence (keyColonSpaceQuote k) doc p) :
    ExtractString doc k = textUpToQuote (doc.drop (p + (keyColonSpaceQuote k).length)) := by
  have hn := (find_zero_eq_none_iff doc _).mpr h1
  have hf := (find_zero_eq_some_iff doc _ p).mpr h
  have hlen := h.add_length_le
  simp only [keyColonQuote, keyColonSpaceQuote] at hn hf hlen ⊢
  simp only [ExtractString, hn, hf, if_true]
  exact find_quote_substr doc _ hlen

theorem textUpToQuote_append_quote (v rest : Str) (hv : '"' ∉ v) :
    textUpToQuote (v ++ '"' :: rest) = v := by
  unfold textUpToQuote
  rw [if_pos (by simp)]
  induction v with
  | nil => simp
  | cons x xs ih =>
    have hx : x ≠ '"' := fun e => hv (by simp [e])
    have hxs : '"' ∉ xs := fun e => hv (by simp [e])
    have := ih hxs
    simp only [List.cons_append, List.takeWhile_cons, ne_eq, hx, not_false_eq_true, decide_True,
      if_true, List.cons.injEq, true_and]
    exact this

/-- Claim C8, as stated, fails: in `{"title":"a\"b"}` the opening pattern first occurs at
index 1, the text up to the next unescaped double quote is `a\"b`, and `ExtractString` returns
`a\`, cut at the escaped quote. -/
theorem extractString_cut_at_escaped_quote :
    FirstOccurrence (keyColonQuote "title".toList)
        "\x7b\"title\":\"a\\\"b\"\x7d".toList 1 ∧
      specValueUpToUnescapedQuote ("\x7b\"title\":\"a\\\"b\"\x7d".toList.drop 10)
        = some "a\\\"b".toList ∧
      ExtractString "\x7b\"title\":\"a\\\"b\"\x7d".toList "title".toList = "a\\".toList ∧
      ExtractString "\x7b\"title\":\"a\\\"b\"\x7d".toList "title".toList ≠ "a\\\"b".toList := by
  decide

/-- Claim C8, amended: when the opening pattern `"k":"` occurs in `doc`, `ExtractString`
returns the text from just after its first occurrence up to the next double quote, whether or
not a backslash precedes that quote, and the empty string when no double quote follows. -/
theorem extractString_stops_at_next_quote (doc k : Str) (p : Nat)
    (h : FirstOccurrence (keyColonQuote k) doc p) :
    (∀ v rest : Str, doc.drop (p + (keyColonQuote k).length) = v ++ '"' :: rest → '"' ∉ v →
      ExtractString doc k = v) ∧
    ('"' ∉ doc.drop (p + (keyColonQuote k).length) → ExtractString doc k = []) := by
  rw [ExtractString_of_first doc k p h]
  constructor
  · intro v rest hd hv
    rw [hd, textUpToQuote_append_quote v rest hv]
  · intro hno
    unfold textUpToQuote
    rw [if_neg hno]

/-- Claim C8 amended, at `{"title":"a\"b"}`: the value read is `a\`. -/
theorem extractString_stops_at_next_quote_witness :
    ExtractString "\x7b\"title\":\"a\\\"b\"\x7d".toList "title".toList = "a\\".toList :=
  (extractString_stops_at_next_quote "\x7b\"title\":\"a\\\"b\"\x7d".toList "title".toList 1
    (by decide)).1 "a\\".toList "b\"\x7d".toList (by decide) (by decide)

/-- Claim C9, as stated, fails: in `{"k": "a","k":"b"}` the one-space pattern occurs at
index 1, before the first occurrence of the no-space pattern at index 10; the value at the
earlier occurrence is `a`, and `ExtractString` returns `b`. -/
theorem extractString_not_earliest_form :
    FirstOccurrence (keyColonSpaceQuote "k".toList)
        "\x7b\"k\": \"a\",\"k\":\"b\"\x7d".toList 1 ∧
      FirstOccurrence (keyColonQuote "k".toList)
        "\x7b\"k\": \"a\",\"k\":\"b\"\x7d".toList 10 ∧
      textUpToQuote ("\x7b\"k\": \"a\",\"k\":\"b\"\x7d".toList.drop
        (1 + (keyColonSpaceQuote "k".toList).length)) = "a".toList ∧
      ExtractString "\x7b\"k\": \"a\",\"k\":\"b\"\x7d".toList "k".toList = "b".toList ∧
      ExtractString "\x7b\"k\": \"a\",\"k\":\"b\"\x7d".toList "k".toList ≠ "a".toList := by
  decide

/-- Claim C9, amended: `ExtractString` reads the value at the first occurrence of the no-space
pattern `"k":"` whenever that pattern occurs anywhere in `doc`, and at the first occurrence of
the one-space pattern `"k": "` only when the no-space pattern occurs nowhere. -/
theorem extractString_prefers_no_space_form (doc k : Str) :
    (∀ p, FirstOccurrence (keyColonQuote k) doc p →
      ExtractString doc k = textUpToQuote (doc.drop (p + (keyColonQuote k).length))) ∧
    (¬ keyColonQuote k <:+: doc → ∀ p, FirstOccurrence (keyColonSpaceQuote k) doc p →
      ExtractString doc k = textUpToQuote (doc.drop (p + (keyColonSpaceQuote k).length))) :=
  ⟨fun p h => ExtractString_of_first doc k p h,
    fun h1 p h => ExtractString_of_second doc k p h1 h⟩

/-- Claim C9 amended, at `{"k": "a","k":"b"}`: the value read is the one at index 10. -/
theorem extractString_prefers_no_space_form_witness :
    ExtractString "\x7b\"k\": \"a\",\"k\":\"b\"\x7d".toList "k".toList = "b".toList :=
  ((extractString_prefers_no_space_form "\x7b\"k\": \"a\",\"k\":\"b\"\x7d".toList
    "k".toList).1 10 (by decide)).trans (by decide)

/-! ## What `ExtractBool` decides -/

theorem skipSpace_eq (s : Str) (pos : Nat) :
    skipSpace s pos = pos + (s.takeWhile isspace).length := by
  induction s generalizing pos with
  | nil => simp [skipSpace]
  | cons c cs ih =>
    simp only [skipSpace, List.takeWhile_cons]
    split
    · rw [ih]; simp
      omega
    · simp

theorem drop_skipSpace (json : Str) (pos : Nat) :
    json.drop (skipSpace (json.drop pos) pos) = (json.drop pos).dropWhile isspace := by
  rw [skipSpace_eq, ← drop_length_takeWhile isspace (json.drop pos), List.drop_drop]

theorem compareEq_iff_prefix (json : Str) (pos : Nat) (lit : Str) :
    compareEq json pos lit.length lit = true ↔ lit <+: json.drop pos := by
  unfold compareEq substr
  rw [List.prefix_iff_eq_take, beq_iff_eq]
  exact eq_comm

theorem ExtractBoolQuoted_eq (json key : Str) :
    ExtractBoolQuoted json key
      = decide (ExtractString json key = "true".toList ∨ ExtractString json key = "True".toList) := by
  have e1 : "true".toList = ['t', 'r', 'u', 'e'] := rfl
  have e2 : "True".toList = ['T', 'r', 'u', 'e'] := rfl
  rw [e1, e2]
  unfold ExtractBoolQuoted
  by_cases h : ExtractString json key = []
  · simp [h]
  · simp [h]

/-- Claim C10: when `"k":` occurs in `doc`, with `t` the text after the colon of its first
occurrence and after any white space following it, `ExtractBool` is true if `t` begins with
`true`, false if `t` begins with `false`, and otherwise, as also when `"k":` occurs nowhere,
true exactly when `ExtractString(doc, k)` is `true` or `True`. -/
theorem extractBool_decision (doc k : Str) :
    (∀ p, FirstOccurrence (keyColon k) doc p →
      ("true".toList <+: (doc.drop (p + (keyColon k).length)).dropWhile isspace →
        ExtractBool doc k = true) ∧
      ("false".toList <+: (doc.drop (p + (keyColon k).length)).dropWhile isspace →
        ExtractBool doc k = false) ∧
      (¬ "true".toList <+: (doc.drop (p + (keyColon k).length)).dropWhile isspace →
        ¬ "false".toList <+: (doc.drop (p + (keyColon k).length)).dropWhile isspace →
        ExtractBool doc k
          = decide (ExtractString doc k = "true".toList ∨
              ExtractString doc k = "True".toList))) ∧
    (¬ keyColon k <:+: doc →
      ExtractBool doc k
        = decide (ExtractString doc k = "true".toList ∨ ExtractString doc k = "True".toList)) := by
  have e1 : "true".toList = ['t', 'r', 'u', 'e'] := rfl
  have e2 : "false".toList = ['f', 'a', 'l', 's', 'e'] := rfl
  constructor
  · intro p h
    have hf := (find_zero_eq_some_iff doc _ p).mpr h
    have ht : compareEq doc
        (skipSpace (doc.drop (p + (keyColon k).length)) (p + (keyColon k).length)) 4
        ['t', 'r', 'u', 'e'] = true ↔ _ := compareEq_iff_prefix doc _ ['t', 'r', 'u', 'e']
    have hfa : compareEq doc
        (skipSpace (doc.drop (p + (keyColon k).length)) (p + (keyColon k).length)) 5
        ['f', 'a', 'l', 's', 'e'] = true ↔ _ := compareEq_iff_prefix doc _ ['f', 'a', 'l', 's', 'e']
    rw [drop_skipSpace] at ht hfa
    rw [← ExtractBoolQuoted_eq, e1, e2]
    simp only [keyColon] at hf ht hfa ⊢
    simp only [ExtractBool, hf]
    refine ⟨?_, ?_, ?_⟩
    · intro h1
      rw [if_pos (ht.mpr h1)]
    · intro h2
      have hnt : ¬ ['t', 'r', 'u', 'e'] <+:
          List.dropWhile isspace (List.drop (p + (['"'] ++ k ++ ['"', ':']).length) doc) := by
        intro h1
        obtain ⟨a, ha⟩ := h1
        obtain ⟨b, hb⟩ := h2
        rw [← ha] at hb
        simp at hb
      rw [if_neg (fun hc => hnt (ht.mp hc)), if_pos (hfa.mpr h2)]
    · intro h1 h2
      rw [if_neg (fun hc => h1 (ht.mp hc)), if_neg (fun hc => h2 (hfa.mp hc))]
  · intro h
    have hf := (find_zero_eq_none_iff doc _).mpr h
    simp only [keyColon] at hf
    rw [← ExtractBoolQuoted_eq]
    simp only [ExtractBool, hf]

/-- Claim C10 at `{"isVideo": true}`, where the literal follows the colon and one space. -/
theorem extractBool_decision_witness :
    ExtractBool "\x7b\"isVideo\": true\x7d".toList "isVideo".toList = true :=
  ((extractBool_decision "\x7b\"isVideo\": true\x7d".toList "isVideo".toList).1 1
    (by decide)).1 (by decide)

/-! ## No extractor steps outside its text -/

theorem find_zero_add_length_le {doc pat : Str} {p : Nat} (h : find doc pat 0 = some p) :
    p + pat.length ≤ doc.length :=
  ((find_zero_eq_some_iff doc pat p).mp h).add_length_le

theorem find_singleton_ge {json : Str} {c : Char} {pos e : Nat}
    (h : find json [c] pos = some e) : pos ≤ e := by
  unfold find at h
  split at h
  · rw [findAux_singleton] at h
    split at h
    · have := Option.some.inj h
      omega
    · exact absurd h (by simp)
  · exact absurd h (by simp)

theorem find_first_ofAux_ge (chars s : Str) (i e : Nat)
    (h : find_first_ofAux chars s i = some e) : i ≤ e := by
  induction s generalizing i with
  | nil => simp [find_first_ofAux] at h
  | cons c cs ih =>
    simp only [find_first_ofAux] at h
    split at h
    · have := Option.some.inj h
      omega
    · have := ih (i + 1) h
      omega

theorem rfindAux_lt (ch : Char) (s : Str) (i : Nat) (last : Option Nat) (e : Nat)
    (h : rfindAux ch s i last = some e) : last = some e ∨ e < i + s.length := by
  induction s generalizing i last with
  | nil => left; simpa [rfindAux] using h
  | cons c cs ih =>
    simp only [rfindAux] at h
    rcases ih (i + 1) _ h with h1 | h1
    · split at h1
      · right
        have := Option.some.inj h1
        simp only [List.length_cons]
        omega
      · left; exact h1
    · right
      simp only [List.length_cons]
      omega

theorem rfind_lt {json : Str} {ch : Char} {e : Nat} (h : rfind json ch = some e) :
    e < json.length := by
  rcases rfindAux_lt ch json 0 none e h with h1 | h1
  · exact absurd h1 (by simp)
  · omega

theorem charAtC_eq (json : Str) (i : Nat) (h : i < json.length) :
    charAtC json i = .ok (charAt json i) := by
  unfold charAtC charAt
  rw [List.getD_eq_getElem json _ h]
  simp [List.getElem?_eq_getElem h]

theorem ExtractStringC_eq (json key : Str) :
    ExtractStringC json key = .ok (ExtractString json key) := by
  unfold ExtractStringC ExtractString
  simp only
  cases h1 : find json (['"'] ++ key ++ ['"', ':', '"']) 0 with
  | some p =>
    have hlen := find_zero_add_length_le h1
    simp only [reduceCtorEq, if_false]
    cases h2 : find json ['"'] (p + (['"'] ++ key ++ ['"', ':', '"']).length) with
    | none => rfl
    | some e =>
      have hge := find_singleton_ge h2
      simp only [subC, substrC, substr, if_pos hge, if_pos hlen, bind, Except.bind]
  | none =>
    simp only [if_true]
    cases h1' : find json (['"'] ++ key ++ ['"', ':', ' ', '"']) 0 with
    | none => rfl
    | some p =>
      have hlen := find_zero_add_length_le h1'
      simp only
      cases h2 : find json ['"'] (p + (['"'] ++ key ++ ['"', ':', ' ', '"']).length) with
      | none => rfl
      | some e =>
        have hge := find_singleton_ge h2
        simp only [subC, substrC, substr, if_pos hge, if_pos hlen, bind, Except.bind]

theorem ExtractIntC_eq (json key : Str) :
    ExtractIntC json key = .ok (ExtractInt json key) := by
  unfold ExtractIntC ExtractInt
  simp only
  cases h1 : find json (['"'] ++ key ++ ['"', ':']) 0 with
  | some p =>
    have hlen := find_zero_add_length_le h1
    simp only [reduceCtorEq, if_false]
    cases h2 : find_first_of json [',', '}', '\n'] (p + (['"'] ++ key ++ ['"', ':']).length) with
    | none => rfl
    | some e =>
      have hge := find_first_ofAux_ge _ _ _ _ h2
      simp only [subC, substrC, substr, if_pos hge, if_pos hlen, bind, Except.bind]
      split <;> rfl
  | none =>
    simp only [if_true]
    cases h1' : find json (['"'] ++ key ++ ['"', ':', ' ']) 0 with
    | none => rfl
    | some p =>
      have hlen := find_zero_add_length_le h1'
      simp only
      cases h2 : find_first_of json [',', '}', '\n']
          (p + (['"'] ++ key ++ ['"', ':', ' ']).length) with
      | none => rfl
      | some e =>
        have hge := find_first_ofAux_ge _ _ _ _ h2
        simp only [subC, substrC, substr, if_pos hge, if_pos hlen, bind, Except.bind]
        split <;> rfl

theorem skipSpace_le (s : Str) (pos : Nat) : skipSpace s pos ≤ pos + s.length := by
  rw [skipSpace_eq]
  have := (List.takeWhile_sublist (l := s) isspace).length_le
  omega

theorem skipSpaceC_eq (json : Str) (fuel pos : Nat) (hpos : pos ≤ json.length)
    (hfuel : json.length < pos + fuel) :
    skipSpaceC json fuel pos = .ok (skipSpace (json.drop pos) pos) := by
  induction fuel generalizing pos with
  | zero => omega
  | succ fuel ih =>
    unfold skipSpaceC
    by_cases hlt : pos < json.length
    · rw [if_pos hlt, charAtC_eq json pos hlt, List.drop_eq_getElem_cons hlt]
      simp only [bind, Except.bind, skipSpace, charAt, List.getD_eq_getElem json _ hlt]
      split
      · exact ih (pos + 1) hlt (by omega)
      · rfl
    · rw [if_neg hlt]
      have : json.drop pos = [] := List.drop_eq_nil_of_le (by omega)
      rw [this]
      rfl

theorem ExtractBoolC_eq (json key : Str) :
    ExtractBoolC json key = .ok (ExtractBool json key) := by
  unfold ExtractBoolC ExtractBool
  simp only [ExtractStringC_eq, bind, Except.bind]
  cases h1 : find json (['"'] ++ key ++ ['"', ':']) 0 with
  | none => rfl
  | some p =>
    have hlen := find_zero_add_length_le h1
    have hle := skipSpace_le (json.drop (p + (['"'] ++ key ++ ['"', ':']).length))
      (p + (['"'] ++ key ++ ['"', ':']).length)
    simp only [List.length_drop] at hle
    have hle' : skipSpace (json.drop (p + (['"'] ++ key ++ ['"', ':']).length))
        (p + (['"'] ++ key ++ ['"', ':']).length) ≤ json.length := by omega
    have hskip := skipSpaceC_eq json (json.length + 1)
      (p + (['"'] ++ key ++ ['"', ':']).length) hlen (by omega)
    simp only [hskip, compareEqC, compareEq, substr, if_pos hle']
    split
    · rfl
    · split <;> rfl

/-- The loop of `ExtractArray` never reads past the text and never captures an item whose start
lies beyond its closing brace. -/
theorem ExtractArrayLoopC_eq (json : Str) (n i : Nat) (braceLevel : Int) (itemStart : Nat)
    (items : List Str) (hbound : i + n ≤ json.length) (hstart : itemStart ≤ i + 1)
    (hopen : 0 < braceLevel → itemStart ≤ i) :
    ExtractArrayLoopC json n i braceLevel itemStart items
      = .ok (ExtractArrayLoop json n i braceLevel itemStart items) := by
  induction n generalizing i braceLevel itemStart items with
  | zero => rfl
  | succ n ih =>
    unfold ExtractArrayLoopC ExtractArrayLoop
    have hi : i < json.length := by omega
    rw [charAtC_eq json i hi]
    simp only [bind, Except.bind]
    by_cases h1 : charAt json i = '{'
    · rw [if_pos h1, if_pos h1]
      exact ih (i + 1) _ _ _ (by omega) (by omega) (fun _ => hstart)
    · rw [if_neg h1, if_neg h1]
      by_cases h2 : charAt json i = '}'
      · rw [if_pos h2, if_pos h2]
        by_cases h3 : braceLevel - 1 = 0
        · have hle : itemStart ≤ i := hopen (by omega)
          rw [if_pos h3, if_pos h3]
          simp only [subC, substrC, substr, if_pos hle, if_pos (show itemStart ≤ json.length by omega)]
          exact ih (i + 1) _ _ _ (by omega) (by omega) (fun h => by omega)
        · rw [if_neg h3, if_neg h3]
          exact ih (i + 1) _ _ _ (by omega) (by omega) (fun h => by have := hopen (by omega); omega)
      · rw [if_neg h2, if_neg h2]
        exact ih (i + 1) _ _ _ (by omega) (by omega) (fun h => by have := hopen h; omega)

theorem ExtractArrayC_eq (json : Str) : ExtractArrayC json = .ok (ExtractArray json) := by
  unfold ExtractArrayC ExtractArray
  cases h1 : find json ['['] 0 with
  | none => rfl
  | some start =>
    cases h2 : rfind json ']' with
    | none => rfl
    | some end_ =>
      have he := rfind_lt h2
      have hs := find_zero_add_length_le h1
      simp only [List.length_singleton] at hs
      exact ExtractArrayLoopC_eq json _ _ 0 _ [] (by omega) (by omega) (fun h => by omega)

/-- Claim C5: on every text and key the four extractors return a value without a fault: run with
every `substr`, `compare`, index read and `size_t` subtraction checked against the bounds of
the text, each returns normally the very value of the unchecked function, and an integer slice
on which `stoi` throws (no digits, or out of the `int` range) yields 0. -/
theorem extractors_never_fault (json key : Str) :
    ExtractStringC json key = .ok (ExtractString json key) ∧
    ExtractIntC json key = .ok (ExtractInt json key) ∧
    ExtractBoolC json key = .ok (ExtractBool json key) ∧
    ExtractArrayC json = .ok (ExtractArray json) ∧
    (∀ p e err, find json (keyColon key) 0 = some p →
      find_first_of json [',', '}', '\n'] (p + (keyColon key).length) = some e →
      stoi (substr json (p + (keyColon key).length) (e - (p + (keyColon key).length)))
        = .error err →
      ExtractInt json key = 0) := by
  refine ⟨ExtractStringC_eq json key, ExtractIntC_eq json key, ExtractBoolC_eq json key,
    ExtractArrayC_eq json, ?_⟩
  intro p e err h1 h2 h3
  simp only [keyColon] at h1 h2 h3
  simp only [ExtractInt, h1, reduceCtorEq, if_false, h2, h3]

/-- Claim C5 at the truncated text `{"n":12x3,"s":"ab` with keys `s` and `n`, at the
unbalanced array `[{}}{]`, and, for the integer slice, at `{"n":abc}` and
`{"n":99999999999}`. -/
theorem extractors_never_fault_witness :
    ExtractStringC "\x7b\"n\":12x3,\"s\":\"ab".toList "s".toList = .ok [] ∧
    ExtractIntC "\x7b\"n\":12x3,\"s\":\"ab".toList "n".toList = .ok 12 ∧
    ExtractArrayC "[\x7b\x7d\x7d\x7b]".toList = .ok ["\x7b\x7d".toList] ∧
    ExtractInt "\x7b\"n\":abc\x7d".toList "n".toList = 0 ∧
    ExtractInt "\x7b\"n\":99999999999\x7d".toList "n".toList = 0 :=
  ⟨(extractors_never_fault "\x7b\"n\":12x3,\"s\":\"ab".toList "s".toList).1.trans (by decide),
    (extractors_never_fault "\x7b\"n\":12x3,\"s\":\"ab".toList "n".toList).2.1.trans (by decide),
    (extractors_never_fault "[\x7b\x7d\x7d\x7b]".toList []).2.2.2.1.trans (by decide),
    (extractors_never_fault "\x7b\"n\":abc\x7d".toList "n".toList).2.2.2.2 1 8
      .invalid_argument (by decide) (by decide) (by decide),
    (extractors_never_fault "\x7b\"n\":99999999999\x7d".toList "n".toList).2.2.2.2 1 16
      .out_of_range (by decide) (by decide) (by decide)⟩

/-! ## Decimal notation and `stoi` -/

theorem digitChar_spec : ∀ k < 10,
    isdigit (Nat.digitChar k) = true ∧ (Nat.digitChar k).toNat - 48 = k := by
  decide

theorem digitsValue_append_singleton (xs : Str) (d : Char) :
    digitsValue (xs ++ [d]) = digitsValue xs * 10 + (d.toNat - 48) := by
  simp [digitsValue, List.foldl_append]

theorem toDigitsCore_spec (fuel n : Nat) (ds : Str) (h : n < fuel) :
    ∃ xs, Nat.toDigitsCore 10 fuel n ds = xs ++ ds ∧ xs ≠ [] ∧
      (∀ c ∈ xs, isdigit c = true) ∧ digitsValue xs = n := by
  induction fuel generalizing n ds with
  | zero => omega
  | succ fuel ih =>
    have hd := digitChar_spec (n % 10) (Nat.mod_lt n (by omega))
    unfold Nat.toDigitsCore
    simp only
    by_cases h0 : n / 10 = 0
    · rw [if_pos h0]
      refine ⟨[Nat.digitChar (n % 10)], rfl, by simp, by simpa using hd.1, ?_⟩
      have : digitsValue [Nat.digitChar (n % 10)] = (Nat.digitChar (n % 10)).toNat - 48 := by
        simp [digitsValue]
      rw [this, hd.2]
      omega
    · rw [if_neg h0]
      obtain ⟨xs, hxs, -, hdig, hval⟩ := ih (n / 10) (Nat.digitChar (n % 10) :: ds) (by omega)
      refine ⟨xs ++ [Nat.digitChar (n % 10)], by simp [hxs], by simp, ?_, ?_⟩
      · intro c hc
        rcases List.mem_append.mp hc with hc | hc
        · exact hdig c hc
        · rw [List.mem_singleton.mp hc]; exact hd.1
      · rw [digitsValue_append_singleton, hval, hd.2]
        omega

/-- The decimal digits of `n` are digits, at least one, and their value is `n`. -/
theorem toDigits_spec (n : Nat) :
    Nat.toDigits 10 n ≠ [] ∧ (∀ c ∈ Nat.toDigits 10 n, isdigit c = true) ∧
      digitsValue (Nat.toDigits 10 n) = n := by
  obtain ⟨xs, hxs, hne, hdig, hval⟩ := toDigitsCore_spec (n + 1) n [] (by omega)
  have : Nat.toDigits 10 n = xs := by simpa [Nat.toDigits] using hxs
  rw [this]
  exact ⟨hne, hdig, hval⟩

theorem takeWhile_append_of_all (f : Char → Bool) (a b : Str) (ha : ∀ c ∈ a, f c = true) :
    (a ++ b).takeWhile f = a ++ b.takeWhile f := by
  induction a with
  | nil => rfl
  | cons x xs ih =>
    have hx := ha x (List.mem_cons_self x xs)
    simp only [List.cons_append, List.takeWhile_cons, hx, if_true]
    rw [ih (fun c hc => ha c (List.mem_cons_of_mem x hc))]

theorem isdigit_not_space (c : Char) (h : isdigit c = true) : isspace c = false := by
  simp only [isdigit, Bool.and_eq_true, decide_eq_true_eq] at h
  simp only [isspace, Bool.or_eq_false_iff, decide_eq_false_iff_not, Bool.and_eq_false_imp,
    decide_eq_true_eq]
  refine ⟨?_, by omega⟩
  intro hc
  rw [hc] at h
  have : ' '.toNat = 32 := rfl
  omega

theorem isdigit_ne (c d : Char) (h : isdigit c = true) (hd : isdigit d = false) : c ≠ d := by
  intro e
  rw [e, hd] at h
  exact absurd h (by simp)

/-- The call `std::stoi` reads back the decimal notation of every `int`. -/
theorem stoi_decimalInt (n : Int) (hlo : -2147483648 ≤ n) (hhi : n ≤ 2147483647) :
    stoi (decimalInt n) = .ok n := by
  obtain ⟨hne, hdig, hval⟩ := toDigits_spec n.natAbs
  obtain ⟨d, ds, hds⟩ := List.exists_cons_of_ne_nil hne
  have hd : isdigit d = true := hdig d (by rw [hds]; exact List.mem_cons_self d ds)
  have htw : (Nat.toDigits 10 n.natAbs).takeWhile isdigit = Nat.toDigits 10 n.natAbs := by
    have := takeWhile_append_of_all isdigit (Nat.toDigits 10 n.natAbs) [] hdig
    simpa using this
  unfold stoi decimalInt
  by_cases hneg : n < 0
  · have hsp : isspace '-' = false := by decide
    simp only [if_pos hneg, List.dropWhile_cons, hsp, List.head?_cons, true_or, if_true,
      List.tail_cons, htw, hval, hne, if_false, Bool.false_eq_true]
    have : (-(n.natAbs : Int)) = n := by omega
    simp only [decide_True, if_true, this]
    rw [if_neg (by omega)]
  · have hsp : isspace d = false := isdigit_not_space d hd
    have h1 : d ≠ '-' := isdigit_ne d '-' hd (by decide)
    have h2 : d ≠ '+' := isdigit_ne d '+' hd (by decide)
    rw [if_neg hneg]
    rw [hds] at htw hval ⊢
    simp only [List.dropWhile_cons, hsp, List.head?_cons, Option.some.injEq, h1, h2, or_self,
      if_false, htw, hval, reduceCtorEq, Bool.false_eq_true, decide_False]
    have : ((n.natAbs : Nat) : Int) = n := by omega
    rw [this, if_neg (by omega)]

/-! ## Searching a key in compact JSON text -/

theorem findAux_hit (needle s : Str) (i : Nat) (h : needle <+: s) :
    findAux needle s i = some i := by
  cases s with
  | nil =>
    have : needle = [] := List.prefix_nil.mp h
    simp [findAux, this]
  | cons c cs =>
    simp only [findAux, List.isPrefixOf_iff_prefix, h, if_true]

theorem findAux_skip_char (nd b : Str) (c : Char) (i : Nat) (hc : c ≠ '"') :
    findAux ('"' :: nd) (c :: b) i = findAux ('"' :: nd) b (i + 1) := by
  have hx : ¬ '"' = c := fun e => hc e.symm
  simp only [findAux, List.isPrefixOf_iff_prefix, List.cons_prefix_cons, hx, false_and, if_false]

theorem findAux_skip (nd a b : Str) (i : Nat) (ha : '"' ∉ a) :
    findAux ('"' :: nd) (a ++ b) i = findAux ('"' :: nd) b (i + a.length) := by
  induction a generalizing i with
  | nil => rfl
  | cons x xs ih =>
    have hx : x ≠ '"' := fun e => ha (List.mem_cons.mpr (Or.inl e.symm))
    have hxs : '"' ∉ xs := fun e => ha (List.mem_cons.mpr (Or.inr e))
    rw [List.cons_append, findAux_skip_char nd _ x i hx, ih (i + 1) hxs, List.length_cons]
    congr 1
    omega

theorem findAux_skip_quote (nd b : Str) (i : Nat) (h : ¬ nd <+: b) :
    findAux ('"' :: nd) ('"' :: b) i = findAux ('"' :: nd) b (i + 1) := by
  simp only [findAux, List.isPrefixOf_iff_prefix, List.cons_prefix_cons, h, and_false, if_false]

theorem prefix_quote_sep (k s x y : Str) (hk : '"' ∉ k) (hs : '"' ∉ s)
    (h : k ++ '"' :: x <+: s ++ '"' :: y) : k = s ∧ x <+: y := by
  induction k generalizing s with
  | nil =>
    cases s with
    | nil => exact ⟨rfl, by simpa using h⟩
    | cons c cs =>
      have := (List.cons_prefix_cons.mp h).1
      exact absurd this (fun e => hs (List.mem_cons.mpr (Or.inl e)))
  | cons a as ih =>
    cases s with
    | nil =>
      have := (List.cons_prefix_cons.mp h).1
      exact absurd this.symm (fun e => hk (List.mem_cons.mpr (Or.inl e)))
    | cons c cs =>
      obtain ⟨hac, hrest⟩ := List.cons_prefix_cons.mp h
      obtain ⟨e, hxy⟩ := ih cs (fun e => hk (List.mem_cons.mpr (Or.inr e)))
        (fun e => hs (List.mem_cons.mpr (Or.inr e))) hrest
      exact ⟨by rw [hac, e], hxy⟩

theorem not_prefix_of_head (k x y : Str) (c : Char) (hc : c ∉ k) (hq : c ≠ '"') :
    ¬ k ++ '"' :: x <+: c :: y := by
  intro h
  cases k with
  | nil => exact hq (List.cons_prefix_cons.mp h).1.symm
  | cons a as => exact hc (List.mem_cons.mpr (Or.inl (List.cons_prefix_cons.mp h).1.symm))

/-- The characters that may follow a value in compact JSON text: a comma or a closing brace. -/
theorem decimalInt_chars (n : Int) (c : Char) (hc : c ∈ decimalInt n) :
    c = '-' ∨ isdigit c = true := by
  unfold decimalInt at hc
  split at hc
  · rcases List.mem_cons.mp hc with h | h
    · exact Or.inl h
    · exact Or.inr ((toDigits_spec _).2.1 c h)
  · exact Or.inr ((toDigits_spec _).2.1 c hc)

theorem decimalInt_no (n : Int) (c : Char) (hc : isdigit c = false) (hm : c ≠ '-') :
    c ∉ decimalInt n := by
  intro h
  rcases decimalInt_chars n c h with h1 | h1
  · exact hm h1
  · rw [hc] at h1; exact absurd h1 (by simp)

/-- Skipping one field with another key: the search for `"k":` followed by `sfx` does not stop
inside the compact text of a field whose key differs from `k`. -/
theorem findAux_skip_field (k sfx : Str) (f : Str × JVal) (r : Char) (R : Str) (i : Nat)
    (hk : PlainKey k) (hf1 : PlainKey f.1) (hf2 : PlainVal f.2) (hne : f.1 ≠ k)
    (hr : r = ',' ∨ r = '}') :
    findAux (['"'] ++ k ++ ['"', ':'] ++ sfx) (renderField f ++ r :: R) i
      = findAux (['"'] ++ k ++ ['"', ':'] ++ sfx) (r :: R) (i + (renderField f).length) := by
  obtain ⟨k', v⟩ := f
  have hkq : '"' ∉ k := fun h => (hk.1 _ h).1 rfl
  have hkq' : '"' ∉ k' := fun h => (hf1.1 _ h).1 rfl
  have hkc : ':' ∉ k := fun h => (hk.2 _ h).1 rfl
  have hkr : r ∉ k := by
    intro h
    rcases hr with e | e
    · exact (hk.2 _ (e ▸ h)).2 rfl
    · exact (hk.1 _ (e ▸ h)).2.2.2 rfl
  have hrq : r ≠ '"' := by rcases hr with e | e <;> rw [e] <;> decide
  have hP : ['"'] ++ k ++ ['"', ':'] ++ sfx = '"' :: (k ++ '"' :: ':' :: sfx) := by simp
  rw [hP]
  have hrest : ∀ (val : Str) (j : Nat), '"' ∉ val →
      findAux ('"' :: (k ++ '"' :: ':' :: sfx)) ('"' :: (k' ++ '"' :: ':' :: (val ++ r :: R))) j
        = findAux ('"' :: (k ++ '"' :: ':' :: sfx)) (r :: R)
            (j + (1 + (k'.length + (1 + (1 + val.length))))) := by
    intro val j hval
    rw [findAux_skip_quote _ _ _ (fun h => hne (prefix_quote_sep k k' _ _ hkq hkq' h).1.symm),
      findAux_skip _ k' _ _ hkq',
      findAux_skip_quote _ _ _ (not_prefix_of_head k _ _ ':' hkc (by decide)),
      findAux_skip_char _ _ ':' _ (by decide), findAux_skip _ val _ _ hval]
    congr 1
    omega
  cases v with
  | str s =>
    have hs : '"' ∉ s := fun h => (hf2 _ h).1 rfl
    have e : renderField (k', JVal.str s) ++ r :: R
        = '"' :: (k' ++ '"' :: ':' :: ([] ++ '"' :: (s ++ '"' :: r :: R))) := by
      simp [renderField, renderVal]
    rw [e, findAux_skip_quote _ _ _ (fun h => hne (prefix_quote_sep k k' _ _ hkq hkq' h).1.symm),
      findAux_skip _ k' _ _ hkq',
      findAux_skip_quote _ _ _ (not_prefix_of_head k _ _ ':' hkc (by decide)),
      findAux_skip_char _ _ ':' _ (by decide), List.nil_append,
      findAux_skip_quote _ _ _ (fun h => by
        have h2 := (prefix_quote_sep k s _ _ hkq hs h).2
        have h3 := (List.cons_prefix_cons.mp h2).1
        rcases hr with e | e <;> rw [e] at h3 <;> exact absurd h3 (by decide)),
      findAux_skip _ s _ _ hs,
      findAux_skip_quote _ _ _ (not_prefix_of_head k _ _ r hkr hrq)]
    congr 1
    simp only [renderField, renderVal, List.length_append, List.length_cons, List.length_nil]
    omega
  | int n =>
    have hval : '"' ∉ decimalInt n := decimalInt_no n '"' (by decide) (by decide)
    have e : renderField (k', JVal.int n) ++ r :: R
        = '"' :: (k' ++ '"' :: ':' :: (decimalInt n ++ r :: R)) := by
      simp [renderField, renderVal]
    rw [e, hrest _ _ hval]
    congr 1
    simp only [renderField, renderVal, List.length_append, List.length_cons, List.length_nil]
    omega
  | bool b =>
    have hval : '"' ∉ (if b then ['t', 'r', 'u', 'e'] else ['f', 'a', 'l', 's', 'e']) := by
      cases b <;> decide
    have e : renderField (k', JVal.bool b) ++ r :: R
        = '"' :: (k' ++ '"' :: ':' ::
            ((if b then ['t', 'r', 'u', 'e'] else ['f', 'a', 'l', 's', 'e']) ++ r :: R)) := by
      simp [renderField, renderVal]
    rw [e, hrest _ _ hval]
    congr 1
    simp only [renderField, renderVal, List.length_append, List.length_cons, List.length_nil]
    omega

theorem intercalate_cons_eq (x : Str) (xs : List Str) :
    [','].intercalate (x :: xs) = x ++ xs.flatMap fun y => ',' :: y := by
  induction xs generalizing x with
  | nil => simp [List.intercalate]
  | cons y ys ih =>
    have : [','].intercalate (x :: y :: ys) = x ++ ',' :: [','].intercalate (y :: ys) := by
      simp [List.intercalate]
    rw [this, ih y]
    simp

theorem intercalate_append_cons (xs1 : List Str) (x : Str) (xs2 : List Str) :
    [','].intercalate (xs1 ++ x :: xs2)
      = (xs1.flatMap fun y => y ++ [',']) ++ (x ++ xs2.flatMap fun y => ',' :: y) := by
  induction xs1 with
  | nil => simpa using intercalate_cons_eq x xs2
  | cons y ys ih =>
    cases ys with
    | nil =>
      have : [','].intercalate ([y] ++ x :: xs2) = y ++ ',' :: [','].intercalate (x :: xs2) := by
        simp [List.intercalate]
      rw [this, intercalate_cons_eq]
      simp
    | cons z zs =>
      have : [','].intercalate (y :: z :: zs ++ x :: xs2)
          = y ++ ',' :: [','].intercalate (z :: zs ++ x :: xs2) := by
        simp [List.intercalate]
      rw [this, ih]
      simp

theorem renderObj_split (fs1 : JObj) (f : Str × JVal) (fs2 : JObj) :
    renderObj (fs1 ++ f :: fs2) = '{' :: (fieldsBefore fs1 ++ (renderField f ++ fieldsAfter fs2)) := by
  unfold renderObj fieldsBefore fieldsAfter
  rw [List.map_append, List.map_cons, intercalate_append_cons]
  simp [List.flatMap_def, List.map_map, Function.comp_def]

theorem fieldsAfter_head (fs : JObj) :
    ∃ r R, fieldsAfter fs = r :: R ∧ (r = ',' ∨ r = '}') := by
  cases fs with
  | nil => exact ⟨'}', [], rfl, Or.inr rfl⟩
  | cons g gs => exact ⟨',', _, by simp [fieldsAfter]; rfl, Or.inl rfl⟩

theorem findAux_fieldsAfter (k sfx : Str) (fs : JObj) (i : Nat) (hk : PlainKey k)
    (hfs : ∀ g ∈ fs, PlainKey g.1 ∧ PlainVal g.2) (hne : ∀ g ∈ fs, g.1 ≠ k) :
    findAux (['"'] ++ k ++ ['"', ':'] ++ sfx) (fieldsAfter fs) i = none := by
  induction fs generalizing i with
  | nil =>
    have hP : ['"'] ++ k ++ ['"', ':'] ++ sfx = '"' :: (k ++ '"' :: ':' :: sfx) := by simp
    rw [hP]
    show findAux _ ('}' :: []) i = none
    rw [findAux_skip_char _ _ '}' _ (by decide)]
    rfl
  | cons g gs ih =>
    obtain ⟨r, R, hR, hr⟩ := fieldsAfter_head gs
    have e : fieldsAfter (g :: gs) = ',' :: (renderField g ++ fieldsAfter gs) := by
      simp [fieldsAfter]
    have hg := hfs g (List.mem_cons_self g gs)
    rw [e]
    have hP : ['"'] ++ k ++ ['"', ':'] ++ sfx = '"' :: (k ++ '"' :: ':' :: sfx) := by simp
    rw [hP, findAux_skip_char _ _ ',' _ (by decide), ← hP, hR,
      findAux_skip_field k sfx g r R _ hk hg.1 hg.2 (hne g (List.mem_cons_self g gs)) hr, ← hR]
    exact ih _ (fun x hx => hfs x (List.mem_cons_of_mem g hx))
      (fun x hx => hne x (List.mem_cons_of_mem g hx))

theorem findAux_fieldsBefore (k sfx : Str) (fs : JObj) (Y : Str) (i : Nat) (hk : PlainKey k)
    (hfs : ∀ g ∈ fs, PlainKey g.1 ∧ PlainVal g.2) (hne : ∀ g ∈ fs, g.1 ≠ k) :
    findAux (['"'] ++ k ++ ['"', ':'] ++ sfx) (fieldsBefore fs ++ Y) i
      = findAux (['"'] ++ k ++ ['"', ':'] ++ sfx) Y (i + (fieldsBefore fs).length) := by
  induction fs generalizing i with
  | nil => rfl
  | cons g gs ih =>
    have e : fieldsBefore (g :: gs) ++ Y = renderField g ++ ',' :: (fieldsBefore gs ++ Y) := by
      simp [fieldsBefore]
    have el : (fieldsBefore (g :: gs)).length
        = (renderField g).length + 1 + (fieldsBefore gs).length := by
      simp [fieldsBefore]
      omega
    have hg := hfs g (List.mem_cons_self g gs)
    have hP : ['"'] ++ k ++ ['"', ':'] ++ sfx = '"' :: (k ++ '"' :: ':' :: sfx) := by simp
    rw [e, findAux_skip_field k sfx g ',' _ _ hk hg.1 hg.2 (hne g (List.mem_cons_self g gs))
      (Or.inl rfl), hP, findAux_skip_char _ _ ',' _ (by decide), ← hP,
      ih _ (fun x hx => hfs x (List.mem_cons_of_mem g hx))
        (fun x hx => hne x (List.mem_cons_of_mem g hx)), el]
    congr 1
    omega

/-- In the compact text of a plain object, the search for `"k":` followed by `sfx` stops at the
field with key `k`, provided the text of its value starts with `sfx`. -/
theorem find_renderObj_field (k sfx : Str) (v : JVal) (fs1 fs2 : JObj)
    (ho : PlainObj (fs1 ++ (k, v) :: fs2)) (hsfx : sfx <+: renderVal v) :
    find (renderObj (fs1 ++ (k, v) :: fs2)) (['"'] ++ k ++ ['"', ':'] ++ sfx) 0
      = some (1 + (fieldsBefore fs1).length) := by
  obtain ⟨hnd, hpl⟩ := ho
  have hk : PlainKey k := (hpl (k, v) (by simp)).1
  have hfs : ∀ g ∈ fs1, PlainKey g.1 ∧ PlainVal g.2 := fun g hg => hpl g (by simp [hg])
  have hne : ∀ g ∈ fs1, g.1 ≠ k := by
    intro g hg e
    rw [List.map_append, List.map_cons, List.nodup_append] at hnd
    exact hnd.2.2 (List.mem_map.mpr ⟨g, hg, rfl⟩) (e ▸ List.mem_cons_self _ _)
  have hP : ['"'] ++ k ++ ['"', ':'] ++ sfx = '"' :: (k ++ '"' :: ':' :: sfx) := by simp
  have hpre : ['"'] ++ k ++ ['"', ':'] ++ sfx <+: renderField (k, v) ++ fieldsAfter fs2 := by
    obtain ⟨t, ht⟩ := hsfx
    refine ⟨t ++ fieldsAfter fs2, ?_⟩
    simp [renderField, ← ht]
  unfold find
  rw [if_pos (Nat.zero_le _), List.drop_zero, renderObj_split, hP,
    findAux_skip_char _ _ '{' _ (by decide), ← hP, findAux_fieldsBefore k sfx fs1 _ _ hk hfs hne,
    findAux_hit _ _ _ hpre]

/-- In the compact text of a plain object, `"k":` occurs nowhere when `k` is none of the
keys. -/
theorem find_renderObj_none (k sfx : Str) (o : JObj) (hk : PlainKey k)
    (hfs : ∀ g ∈ o, PlainKey g.1 ∧ PlainVal g.2) (hne : ∀ g ∈ o, g.1 ≠ k) :
    find (renderObj o) (['"'] ++ k ++ ['"', ':'] ++ sfx) 0 = none := by
  have hP : ['"'] ++ k ++ ['"', ':'] ++ sfx = '"' :: (k ++ '"' :: ':' :: sfx) := by simp
  unfold find
  rw [if_pos (Nat.zero_le _), List.drop_zero]
  cases o with
  | nil =>
    show findAux _ ('{' :: '}' :: []) 0 = none
    rw [hP, findAux_skip_char _ _ '{' _ (by decide), findAux_skip_char _ _ '}' _ (by decide)]
    rfl
  | cons g gs =>
    obtain ⟨r, R, hR, hr⟩ := fieldsAfter_head gs
    have hg := hfs g (List.mem_cons_self g gs)
    have := renderObj_split [] g gs
    rw [List.nil_append] at this
    rw [this, hP, findAux_skip_char _ _ '{' _ (by decide), ← hP]
    show findAux _ (renderField g ++ fieldsAfter gs) _ = none
    rw [hR, findAux_skip_field k sfx g r R _ hk hg.1 hg.2 (hne g (List.mem_cons_self g gs)) hr,
      ← hR]
    exact findAux_fieldsAfter k sfx gs _ hk (fun x hx => hfs x (List.mem_cons_of_mem g hx))
      (fun x hx => hne x (List.mem_cons_of_mem g hx))

/-! ## Reading the fields of a compact plain object back -/

theorem renderObj_at_value (k sfx : Str) (v : JVal) (fs1 fs2 : JObj) (rest : Str)
    (hv : renderVal v = sfx ++ rest) :
    (renderObj (fs1 ++ (k, v) :: fs2)).drop
        (1 + (fieldsBefore fs1).length + (['"'] ++ k ++ ['"', ':'] ++ sfx).length)
      = rest ++ fieldsAfter fs2 := by
  have e : renderObj (fs1 ++ (k, v) :: fs2)
      = ('{' :: fieldsBefore fs1 ++ (['"'] ++ k ++ ['"', ':'] ++ sfx))
          ++ (rest ++ fieldsAfter fs2) := by
    rw [renderObj_split]
    simp [renderField, hv]
  rw [e]
  apply List.drop_left'
  simp only [List.length_append, List.length_cons, List.length_nil]
  omega

theorem ExtractString_renderObj (k s : Str) (fs1 fs2 : JObj)
    (ho : PlainObj (fs1 ++ (k, JVal.str s) :: fs2)) :
    ExtractString (renderObj (fs1 ++ (k, JVal.str s) :: fs2)) k = s := by
  have hs : '"' ∉ s := fun h => ((ho.2 (k, JVal.str s) (by simp)).2 _ h).1 rfl
  have hf := find_renderObj_field k ['"'] (JVal.str s) fs1 fs2 ho ⟨s ++ ['"'], by simp [renderVal]⟩
  have hocc := (find_zero_eq_some_iff _ _ _).mp hf
  have hP : ['"'] ++ k ++ ['"', ':'] ++ ['"'] = keyColonQuote k := by simp
  rw [hP] at hocc
  rw [ExtractString_of_first _ k _ hocc, ← hP,
    renderObj_at_value k ['"'] (JVal.str s) fs1 fs2 (s ++ ['"']) (by simp [renderVal]),
    List.append_assoc]
  exact textUpToQuote_append_quote s _ hs

theorem find_first_ofAux_skip (chars a R : Str) (r : Char) (i : Nat)
    (ha : ∀ c ∈ a, c ∉ chars) (hr : r ∈ chars) :
    find_first_ofAux chars (a ++ r :: R) i = some (i + a.length) := by
  induction a generalizing i with
  | nil => simp [find_first_ofAux, hr]
  | cons x xs ih =>
    have hx := ha x (List.mem_cons_self x xs)
    have : find_first_ofAux chars (x :: (xs ++ r :: R)) i
        = find_first_ofAux chars (xs ++ r :: R) (i + 1) := by
      simp [find_first_ofAux, hx]
    rw [List.cons_append, this, ih (i + 1) (fun c hc => ha c (List.mem_cons_of_mem x hc)),
      List.length_cons]
    congr 1
    omega

theorem decimalInt_no_terminator (n : Int) :
    ∀ c ∈ decimalInt n, c ∉ [',', '}', '\n'] := by
  intro c hc
  have h1 : c ≠ ',' := fun e => decimalInt_no n ',' (by decide) (by decide) (e ▸ hc)
  have h2 : c ≠ '}' := fun e => decimalInt_no n '}' (by decide) (by decide) (e ▸ hc)
  have h3 : c ≠ '\n' := fun e => decimalInt_no n '\n' (by decide) (by decide) (e ▸ hc)
  simp [h1, h2, h3]

theorem ExtractInt_renderObj (k : Str) (n : Int) (fs1 fs2 : JObj)
    (ho : PlainObj (fs1 ++ (k, JVal.int n) :: fs2)) :
    ExtractInt (renderObj (fs1 ++ (k, JVal.int n) :: fs2)) k = n := by
  have hn := (ho.2 (k, JVal.int n) (by simp)).2
  have hf := find_renderObj_field k [] (JVal.int n) fs1 fs2 ho (List.nil_prefix)
  have hd := renderObj_at_value k [] (JVal.int n) fs1 fs2 (decimalInt n) (by simp [renderVal])
  simp only [List.append_nil] at hf hd
  obtain ⟨r, R, hR, hr⟩ := fieldsAfter_head fs2
  have hr' : r ∈ [',', '}', '\n'] := by
    rcases hr with e | e <;> rw [e] <;> decide
  unfold ExtractInt
  simp only [hf, reduceCtorEq, if_false, find_first_of, substr, hd]
  rw [hR, find_first_ofAux_skip _ _ _ _ _ (decimalInt_no_terminator n) hr']
  simp only [Nat.add_sub_cancel_left, List.take_left, stoi_decimalInt n hn.1 hn.2]

theorem ExtractBool_renderObj (k : Str) (b : Bool) (fs1 fs2 : JObj)
    (ho : PlainObj (fs1 ++ (k, JVal.bool b) :: fs2)) :
    ExtractBool (renderObj (fs1 ++ (k, JVal.bool b) :: fs2)) k = b := by
  have hf := find_renderObj_field k [] (JVal.bool b) fs1 fs2 ho (List.nil_prefix)
  have hd := renderObj_at_value k [] (JVal.bool b) fs1 fs2 (renderVal (JVal.bool b))
    (by simp)
  simp only [List.append_nil] at hf hd
  unfold ExtractBool
  simp only [hf, hd, compareEq, substr]
  cases b with
  | true =>
    have : skipSpace (renderVal (JVal.bool true) ++ fieldsAfter fs2)
        (1 + (fieldsBefore fs1).length + (['"'] ++ k ++ ['"', ':']).length)
        = 1 + (fieldsBefore fs1).length + (['"'] ++ k ++ ['"', ':']).length := rfl
    rw [this, hd]
    rfl
  | false =>
    have : skipSpace (renderVal (JVal.bool false) ++ fieldsAfter fs2)
        (1 + (fieldsBefore fs1).length + (['"'] ++ k ++ ['"', ':']).length)
        = 1 + (fieldsBefore fs1).length + (['"'] ++ k ++ ['"', ':']).length := rfl
    rw [this, hd]
    rfl

/-- Every field of a plain object is read back from the compact text of the object by the
extractor of its type. -/
theorem ExtractsTo_renderObj (o : JObj) (ho : PlainObj o) (k : Str) (v : JVal)
    (hmem : (k, v) ∈ o) : ExtractsTo (renderObj o) k v := by
  obtain ⟨fs1, fs2, rfl⟩ := List.append_of_mem hmem
  cases v with
  | str s => exact ExtractString_renderObj k s fs1 fs2 ho
  | int n => exact ExtractInt_renderObj k n fs1 fs2 ho
  | bool b => exact ExtractBool_renderObj k b fs1 fs2 ho

theorem ExtractString_eq_nil_of_find_none (doc k : Str)
    (h : find doc (['"'] ++ k ++ ['"', ':'] ++ []) 0 = none) : ExtractString doc k = [] := by
  have hni : ¬ (['"'] ++ k ++ ['"', ':']) <:+: doc := by
    rw [← find_zero_eq_none_iff]; simpa using h
  have h1 := find_zero_eq_none_of_prefix doc (['"'] ++ k ++ ['"', ':']) ['"'] hni
  have h2 := find_zero_eq_none_of_prefix doc (['"'] ++ k ++ ['"', ':']) [' ', '"'] hni
  simp only [List.append_assoc, List.cons_append, List.nil_append] at h1 h2
  simp only [ExtractString, List.append_assoc, List.cons_append, List.nil_append, h1, h2, if_true]

theorem ExtractBool_eq_false_of_find_none (doc k : Str)
    (h : find doc (['"'] ++ k ++ ['"', ':'] ++ []) 0 = none) : ExtractBool doc k = false := by
  have hs := ExtractString_eq_nil_of_find_none doc k h
  simp only [List.append_nil] at h
  simp only [ExtractBool, ExtractBoolQuoted, h, hs]
  simp

/-! ## `ExtractArray` on a compact array of plain objects -/

theorem rfindAux_append_singleton (ch : Char) (s : Str) (i : Nat) (last : Option Nat) :
    rfindAux ch (s ++ [ch]) i last = some (i + s.length) := by
  induction s generalizing i last with
  | nil => simp [rfindAux]
  | cons c cs ih =>
    rw [List.cons_append, rfindAux, ih, List.length_cons, Nat.add_assoc, Nat.add_comm 1]

theorem ExtractArrayLoop_eq_scan (json : Str) (n i : Nat) (braceLevel : Int) (itemStart : Nat)
    (items : List Str) (h : i + n ≤ json.length) :
    ExtractArrayLoop json n i braceLevel itemStart items
      = ExtractArrayScan json ((json.drop i).take n) i braceLevel itemStart items := by
  induction n generalizing i braceLevel itemStart items with
  | zero => rfl
  | succ n ih =>
    have hi : i < json.length := by omega
    have hc : charAt json i = json[i] := List.getD_eq_getElem json _ hi
    rw [List.drop_eq_getElem_cons hi, List.take_succ_cons]
    unfold ExtractArrayLoop ExtractArrayScan
    rw [hc]
    simp only [ih (i + 1) _ _ _ (by omega)]

theorem ExtractArrayScan_plain (json a b : Str) (i : Nat) (braceLevel : Int) (itemStart : Nat)
    (items : List Str) (ha : ∀ c ∈ a, c ≠ '{' ∧ c ≠ '}') :
    ExtractArrayScan json (a ++ b) i braceLevel itemStart items
      = ExtractArrayScan json b (i + a.length) braceLevel itemStart items := by
  induction a generalizing i with
  | nil => rfl
  | cons x xs ih =>
    have hx := ha x (List.mem_cons_self x xs)
    rw [List.cons_append, ExtractArrayScan, if_neg hx.1, if_neg hx.2,
      ih (i + 1) (fun c hc => ha c (List.mem_cons_of_mem x hc)), List.length_cons]
    congr 1
    omega

/-- One object with a brace-free body, read at brace level 0 from its own start, is captured
whole. -/
theorem ExtractArrayScan_object (json body rest : Str) (i : Nat) (items : List Str)
    (hb : ∀ c ∈ body, c ≠ '{' ∧ c ≠ '}') :
    ExtractArrayScan json ('{' :: (body ++ '}' :: rest)) i 0 i items
      = ExtractArrayScan json rest (i + (body.length + 2)) 0 (i + (body.length + 2) + 1)
          (items ++ [substr json i (body.length + 2)]) := by
  rw [ExtractArrayScan, if_pos rfl, ExtractArrayScan_plain json body _ _ _ _ _ hb,
    ExtractArrayScan, if_neg (by decide), if_pos rfl, if_pos (by norm_num)]
  have e1 : i + 1 + body.length + 1 = i + (body.length + 2) := by omega
  have e2 : i + 1 + body.length + 2 = i + (body.length + 2) + 1 := by omega
  have e3 : i + 1 + body.length - i + 1 = body.length + 2 := by omega
  have e4 : (0 : Int) + 1 - 1 = 0 := by norm_num
  rw [e1, e2, e3, e4]

theorem renderVal_no_brace (v : JVal) (hv : PlainVal v) :
    ∀ c ∈ renderVal v, c ≠ '{' ∧ c ≠ '}' := by
  intro c hc
  cases v with
  | str s =>
    simp only [renderVal, List.mem_append, List.mem_singleton] at hc
    rcases hc with (hc | hc) | hc
    · rw [hc]; decide
    · exact ⟨(hv c hc).2.2.1, (hv c hc).2.2.2⟩
    · rw [hc]; decide
  | int n =>
    exact ⟨fun e => decimalInt_no n '{' (by decide) (by decide) (e ▸ hc),
      fun e => decimalInt_no n '}' (by decide) (by decide) (e ▸ hc)⟩
  | bool b =>
    cases b
    · have : ∀ c ∈ ['f', 'a', 'l', 's', 'e'], c ≠ '{' ∧ c ≠ '}' := by decide
      exact this c hc
    · have : ∀ c ∈ ['t', 'r', 'u', 'e'], c ≠ '{' ∧ c ≠ '}' := by decide
      exact this c hc

theorem renderField_no_brace (f : Str × JVal) (hf : PlainKey f.1 ∧ PlainVal f.2) :
    ∀ c ∈ renderField f, c ≠ '{' ∧ c ≠ '}' := by
  intro c hc
  simp only [renderField, List.mem_append, List.mem_singleton, List.mem_cons,
    List.mem_nil_iff, or_false] at hc
  rcases hc with ((hc | hc) | (hc | hc)) | hc
  · rw [hc]; decide
  · exact ⟨(hf.1.1 c hc).2.2.1, (hf.1.1 c hc).2.2.2⟩
  · rw [hc]; decide
  · rw [hc]; decide
  · exact renderVal_no_brace f.2 hf.2 c hc

/-- The compact text of a plain object is `{`, a brace-free body, `}`. -/
theorem renderObj_body (o : JObj) (ho : PlainObj o) :
    ∃ body, renderObj o = '{' :: (body ++ ['}']) ∧ ∀ c ∈ body, c ≠ '{' ∧ c ≠ '}' := by
  refine ⟨[','].intercalate (o.map renderField), by simp [renderObj], ?_⟩
  intro c hc
  cases o with
  | nil => simp [List.intercalate] at hc
  | cons f fs =>
    rw [List.map_cons, intercalate_cons_eq, List.mem_append, List.mem_flatMap] at hc
    rcases hc with hc | ⟨x, hx, hc⟩
    · exact renderField_no_brace f (ho.2 f (List.mem_cons_self f fs)) c hc
    · obtain ⟨g, hg, rfl⟩ := List.mem_map.mp hx
      rcases List.mem_cons.mp hc with hc | hc
      · rw [hc]; decide
      · exact renderField_no_brace g (ho.2 g (List.mem_cons_of_mem f hg)) c hc

theorem ExtractArrayScan_renderObj (json rest : Str) (o : JObj) (i : Nat) (items : List Str)
    (ho : PlainObj o) (hj : json.drop i = renderObj o ++ rest) :
    ExtractArrayScan json (renderObj o ++ rest) i 0 i items
      = ExtractArrayScan json rest (i + (renderObj o).length) 0 (i + (renderObj o).length + 1)
          (items ++ [renderObj o]) := by
  obtain ⟨body, hbody, hb⟩ := renderObj_body o ho
  have hlen : (renderObj o).length = body.length + 2 := by simp [hbody]
  have hsub : substr json i (body.length + 2) = renderObj o := by
    unfold substr
    rw [hj, ← hlen, List.take_left]
  have e : renderObj o ++ rest = '{' :: (body ++ '}' :: rest) := by simp [hbody]
  rw [e, ExtractArrayScan_object json body rest i items hb, hsub, hlen]

theorem ExtractArrayScan_tail (json post : Str) (os : List JObj) (i : Nat) (items : List Str)
    (hos : ∀ o ∈ os, PlainObj o)
    (hj : json.drop i = (os.flatMap fun o => ',' :: renderObj o) ++ post) :
    ExtractArrayScan json (os.flatMap fun o => ',' :: renderObj o) i 0 (i + 1) items
      = items ++ os.map renderObj := by
  induction os generalizing i items with
  | nil => simp [ExtractArrayScan]
  | cons o os ih =>
    have ho := hos o (List.mem_cons_self o os)
    have hj1 : json.drop (i + 1)
        = renderObj o ++ ((os.flatMap fun o => ',' :: renderObj o) ++ post) := by
      rw [← List.drop_drop, hj]
      simp
    have hj2 : json.drop (i + 1 + (renderObj o).length)
        = (os.flatMap fun o => ',' :: renderObj o) ++ post := by
      rw [← List.drop_drop, hj1, List.drop_left]
    rw [List.flatMap_cons, List.cons_append, ExtractArrayScan, if_neg (by decide),
      if_neg (by decide)]
    obtain ⟨body, hbody, hb⟩ := renderObj_body o ho
    have hlen : (renderObj o).length = body.length + 2 := by simp [hbody]
    have hsub : substr json (i + 1) (body.length + 2) = renderObj o := by
      unfold substr
      rw [hj1, ← hlen, List.take_left]
    have e : renderObj o ++ (os.flatMap fun o => ',' :: renderObj o)
        = '{' :: (body ++ '}' :: (os.flatMap fun o => ',' :: renderObj o)) := by simp [hbody]
    rw [e, ExtractArrayScan_object json body _ (i + 1) items hb, hsub, ← hlen,
      ih _ _ (fun x hx => hos x (List.mem_cons_of_mem o hx)) hj2]
    simp

/-- On the compact text of an array of plain objects, `ExtractArray` returns the compact texts
of the objects, one per element, in order. -/
theorem ExtractArray_renderArr (os : List JObj) (hos : ∀ o ∈ os, PlainObj o) :
    ExtractArray (renderArr os) = os.map renderObj := by
  have hfind : find (renderArr os) ['['] 0 = some 0 := by
    simp [find, renderArr, findAux]
  have hrfind : rfind (renderArr os) ']'
      = some (1 + ([','].intercalate (os.map renderObj)).length) := by
    unfold rfind renderArr
    rw [List.append_assoc, List.singleton_append, rfindAux, rfindAux_append_singleton]
  unfold ExtractArray
  rw [hfind, hrfind]
  simp only [Nat.zero_add, Nat.add_sub_cancel_left]
  rw [ExtractArrayLoop_eq_scan _ _ _ _ _ _ (by simp [renderArr]; omega)]
  have hdrop : (renderArr os).drop 1 = [','].intercalate (os.map renderObj) ++ [']'] := by
    simp [renderArr]
  rw [hdrop, List.take_left]
  cases os with
  | nil => simp [List.intercalate, ExtractArrayScan]
  | cons o os =>
    have ho := hos o (List.mem_cons_self o os)
    have hint : [','].intercalate ((o :: os).map renderObj)
        = renderObj o ++ os.flatMap fun o => ',' :: renderObj o := by
      rw [List.map_cons, intercalate_cons_eq, List.flatMap_def, List.flatMap_def, List.map_map]
      rfl
    rw [hint] at hdrop ⊢
    obtain ⟨body, hbody, hb⟩ := renderObj_body o ho
    have hlen : (renderObj o).length = body.length + 2 := by simp [hbody]
    have hsub : substr (renderArr (o :: os)) 1 (body.length + 2) = renderObj o := by
      unfold substr
      rw [hdrop, ← hlen, List.append_assoc, List.take_left]
    have e : renderObj o ++ (os.flatMap fun o => ',' :: renderObj o)
        = '{' :: (body ++ '}' :: (os.flatMap fun o => ',' :: renderObj o)) := by simp [hbody]
    have hj2 : (renderArr (o :: os)).drop (1 + (renderObj o).length)
        = (os.flatMap fun o => ',' :: renderObj o) ++ [']'] := by
      rw [← List.drop_drop, hdrop, List.append_assoc, List.drop_left]
    rw [e, ExtractArrayScan_object _ body _ 1 [] hb, hsub, ← hlen,
      ExtractArrayScan_tail _ [']'] os _ _ (fun x hx => hos x (List.mem_cons_of_mem o hx)) hj2]
    simp

/-- Claim C6, as stated, fails: `[{"t":"}"}]` is the compact JSON text of an array of one flat
object whose field `t` is the string `}`; `ExtractArray` returns the item `{"t":"}`, which is not
the text of the element, and `ExtractString` on that item returns the empty string for `t`.
Further valid texts on which it fails: in `[{"a":1}, {"a":2}]` the second item starts at the
space before its `{`; the integer field of `{"n":3000000000}` is read as 0; the integer field
with key `,` of `{"x":"v",":y":1,",":2}` is read as 0. -/
theorem extractArray_cuts_at_brace_in_string :
    renderArr [[("t".toList, JVal.str "\x7d".toList)]] = "[\x7b\"t\":\"\x7d\"\x7d]".toList ∧
      ExtractArray "[\x7b\"t\":\"\x7d\"\x7d]".toList = ["\x7b\"t\":\"\x7d".toList] ∧
      ExtractArray (renderArr [[("t".toList, JVal.str "\x7d".toList)]])
        ≠ [renderObj [("t".toList, JVal.str "\x7d".toList)]] ∧
      ExtractString "\x7b\"t\":\"\x7d".toList "t".toList = [] ∧
      ¬ ExtractsTo "\x7b\"t\":\"\x7d".toList "t".toList (JVal.str "\x7d".toList) ∧
      ExtractArray "[\x7b\"a\":1\x7d, \x7b\"a\":2\x7d]".toList
        = ["\x7b\"a\":1\x7d".toList, " \x7b\"a\":2\x7d".toList] ∧
      ExtractInt "\x7b\"n\":3000000000\x7d".toList "n".toList = 0 ∧
      ExtractInt "\x7b\"x\":\"v\",\":y\":1,\",\":2\x7d".toList ",".toList = 0 := by
  decide

/-- Claim C6, amended: on the compact JSON text of an array of flat objects whose keys are
pairwise different within an object and hold no double quote, backslash, brace, colon or
comma, whose string values hold no double quote, backslash or brace and whose integer values
fit the type `int`, `ExtractArray` returns exactly one item per element, in element order, each
item being the raw text of its element from `{` to `}`, and every field of an element is read
back from its item by the extractor of its type. -/
theorem extractArray_compact_plain_roundtrip (os : List JObj) (hos : ∀ o ∈ os, PlainObj o) :
    ExtractArray (renderArr os) = os.map renderObj ∧
      ∀ o ∈ os, ∀ k v, (k, v) ∈ o → ExtractsTo (renderObj o) k v :=
  ⟨ExtractArray_renderArr os hos, fun o ho k v hmem => ExtractsTo_renderObj o (hos o ho) k v hmem⟩

/-- Claim C6 amended, at the array `[{"id":"abc","n":180},{"v":true,"n":-7}]`. -/
theorem extractArray_compact_plain_roundtrip_witness :
    renderArr [[("id".toList, JVal.str "abc".toList), ("n".toList, JVal.int 180)],
        [("v".toList, JVal.bool true), ("n".toList, JVal.int (-7))]]
      = "[\x7b\"id\":\"abc\",\"n\":180\x7d,\x7b\"v\":true,\"n\":-7\x7d]".toList ∧
    ExtractArray (renderArr [[("id".toList, JVal.str "abc".toList), ("n".toList, JVal.int 180)],
        [("v".toList, JVal.bool true), ("n".toList, JVal.int (-7))]])
      = [[("id".toList, JVal.str "abc".toList), ("n".toList, JVal.int 180)],
        [("v".toList, JVal.bool true), ("n".toList, JVal.int (-7))]].map renderObj ∧
    ExtractsTo (renderObj [("v".toList, JVal.bool true), ("n".toList, JVal.int (-7))])
      "n".toList (JVal.int (-7)) :=
  ⟨by decide,
    (extractArray_compact_plain_roundtrip
      [[("id".toList, JVal.str "abc".toList), ("n".toList, JVal.int 180)],
        [("v".toList, JVal.bool true), ("n".toList, JVal.int (-7))]] (by decide)).1,
    (extractArray_compact_plain_roundtrip
      [[("id".toList, JVal.str "abc".toList), ("n".toList, JVal.int 180)],
        [("v".toList, JVal.bool true), ("n".toList, JVal.int (-7))]] (by decide)).2
      [("v".toList, JVal.bool true), ("n".toList, JVal.int (-7))] (by decide)
      "n".toList (JVal.int (-7)) (by decide)⟩

/-! ## `ParseTracks` on compact track records -/

theorem renderTrackRecord_eq (r : TrackRecord) :
    renderTrackRecord r = renderObj (recordObject r) := by
  have hd : decimalInt (r.duration : Int) = Nat.toDigits 10 r.duration := by
    unfold decimalInt
    rw [if_neg (by omega)]
    rfl
  simp [renderTrackRecord, renderObj, recordObject, renderField, renderVal, List.intercalate, hd]

theorem renderTrackRecords_eq (rs : List TrackRecord) :
    renderTrackRecords rs = renderArr (rs.map recordObject) := by
  have e : rs.map renderTrackRecord = (rs.map recordObject).map renderObj := by
    rw [List.map_map]
    exact List.map_congr_left (fun r _ => renderTrackRecord_eq r)
  unfold renderTrackRecords renderArr
  rw [e]

theorem recordObject_plain (r : TrackRecord) (h1 : PlainText r.id) (h2 : PlainText r.title)
    (h3 : PlainText r.artist) (h4 : r.duration < 2147483648) : PlainObj (recordObject r) := by
  have hk1 : PlainKey ['v', 'i', 'd', 'e', 'o', 'I', 'd'] := by decide
  have hk2 : PlainKey ['t', 'i', 't', 'l', 'e'] := by decide
  have hk3 : PlainKey ['a', 'r', 't', 'i', 's', 't'] := by decide
  have hk4 : PlainKey ['d', 'u', 'r', 'a', 't', 'i', 'o', 'n'] := by decide
  have hnd : [['v', 'i', 'd', 'e', 'o', 'I', 'd'], ['t', 'i', 't', 'l', 'e'],
      ['a', 'r', 't', 'i', 's', 't'], ['d', 'u', 'r', 'a', 't', 'i', 'o', 'n']].Nodup := by
    decide
  refine ⟨hnd, ?_⟩
  intro f hf
  simp only [recordObject, List.mem_cons, List.mem_nil_iff, or_false] at hf
  rcases hf with rfl | rfl | rfl | rfl
  · exact ⟨hk1, h1⟩
  · exact ⟨hk2, h2⟩
  · exact ⟨hk3, h3⟩
  · exact ⟨hk4, by constructor <;> omega⟩

theorem trackOfItem_record (r : TrackRecord) (ho : PlainObj (recordObject r)) :
    trackOfItem (renderObj (recordObject r)) = recordTrack r := by
  have hkeys : ∀ g ∈ recordObject r, PlainKey g.1 ∧ PlainVal g.2 := ho.2
  have habs : ∀ k : Str, PlainKey k → (∀ g ∈ recordObject r, g.1 ≠ k) →
      find (renderObj (recordObject r)) (['"'] ++ k ++ ['"', ':'] ++ []) 0 = none :=
    fun k hk hne => find_renderObj_none k [] (recordObject r) hk hkeys hne
  have hne : ∀ k : Str, k ≠ ['v', 'i', 'd', 'e', 'o', 'I', 'd'] → k ≠ ['t', 'i', 't', 'l', 'e'] →
      k ≠ ['a', 'r', 't', 'i', 's', 't'] → k ≠ ['d', 'u', 'r', 'a', 't', 'i', 'o', 'n'] →
      ∀ g ∈ recordObject r, g.1 ≠ k := by
    intro k e1 e2 e3 e4 g hg
    simp only [recordObject, List.mem_cons, List.mem_nil_iff, or_false] at hg
    rcases hg with rfl | rfl | rfl | rfl
    · exact fun e => e1 e.symm
    · exact fun e => e2 e.symm
    · exact fun e => e3 e.symm
    · exact fun e => e4 e.symm
  have h1 := ExtractString_renderObj ['v', 'i', 'd', 'e', 'o', 'I', 'd'] r.id []
    [(['t', 'i', 't', 'l', 'e'], JVal.str r.title),
      (['a', 'r', 't', 'i', 's', 't'], JVal.str r.artist),
      (['d', 'u', 'r', 'a', 't', 'i', 'o', 'n'], JVal.int r.duration)] ho
  have h2 := ExtractString_renderObj ['t', 'i', 't', 'l', 'e'] r.title
    [(['v', 'i', 'd', 'e', 'o', 'I', 'd'], JVal.str r.id)]
    [(['a', 'r', 't', 'i', 's', 't'], JVal.str r.artist),
      (['d', 'u', 'r', 'a', 't', 'i', 'o', 'n'], JVal.int r.duration)] ho
  have h3 := ExtractString_renderObj ['a', 'r', 't', 'i', 's', 't'] r.artist
    [(['v', 'i', 'd', 'e', 'o', 'I', 'd'], JVal.str r.id),
      (['t', 'i', 't', 'l', 'e'], JVal.str r.title)]
    [(['d', 'u', 'r', 'a', 't', 'i', 'o', 'n'], JVal.int r.duration)] ho
  have h4 := ExtractInt_renderObj ['d', 'u', 'r', 'a', 't', 'i', 'o', 'n'] r.duration
    [(['v', 'i', 'd', 'e', 'o', 'I', 'd'], JVal.str r.id),
      (['t', 'i', 't', 'l', 'e'], JVal.str r.title),
      (['a', 'r', 't', 'i', 's', 't'], JVal.str r.artist)] [] ho
  have h5 := ExtractString_eq_nil_of_find_none _ _
    (habs ['a', 'l', 'b', 'u', 'm'] (by decide)
      (hne _ (by decide) (by decide) (by decide) (by decide)))
  have h6 := ExtractString_eq_nil_of_find_none _ _
    (habs ['t', 'h', 'u', 'm', 'b', 'n', 'a', 'i', 'l'] (by decide)
      (hne _ (by decide) (by decide) (by decide) (by decide)))
  have h7 := ExtractBool_eq_false_of_find_none _ _
    (habs ['i', 's', 'V', 'i', 'd', 'e', 'o'] (by decide)
      (hne _ (by decide) (by decide) (by decide) (by decide)))
  simp only [List.nil_append, List.cons_append] at h1 h2 h3 h4
  have e : recordObject r = [(['v', 'i', 'd', 'e', 'o', 'I', 'd'], JVal.str r.id),
      (['t', 'i', 't', 'l', 'e'], JVal.str r.title),
      (['a', 'r', 't', 'i', 's', 't'], JVal.str r.artist),
      (['d', 'u', 'r', 'a', 't', 'i', 'o', 'n'], JVal.int r.duration)] := rfl
  rw [← e] at h1 h2 h3 h4
  simp only [trackOfItem, recordTrack, h1, h2, h3, h4, h5, h6, h7]

theorem floatOfInt_small (n : Int) (h : n.natAbs ≤ 16777216) : floatOfInt n = n := by
  rcases Nat.lt_or_ge n.natAbs 16777216 with hlt | hge
  · have he : ulpExp 8 n.natAbs = 0 := by simp [ulpExp, hlt]
    simp only [floatOfInt, he, pow_zero, Nat.div_one, Nat.mod_one, Nat.mul_zero, Nat.mul_one]
    rw [if_neg (by omega)]
    exact Int.sign_mul_natAbs n
  · have hm : n.natAbs = 16777216 := by omega
    have he : ulpExp 8 16777216 = 1 := by decide
    simp only [floatOfInt, hm, he]
    have : n = 16777216 ∨ n = -16777216 := by omega
    rcases this with rfl | rfl <;> decide

/-- Claim C7, as stated, fails: for the record a / b / c / 16777217, within the bounds of the
claim, the Track returned for its compact text has duration 16777216, the nearest `float`. -/
theorem parseTracks_duration_rounded :
    renderTrackRecords [⟨"a".toList, "b".toList, "c".toList, 16777217⟩]
      = "[\x7b\"videoId\":\"a\",\"title\":\"b\",\"artist\":\"c\",\"duration\":16777217\x7d]".toList ∧
    (16777217 : Nat) < 2147483648 ∧
    ParseTracks (renderTrackRecords [⟨"a".toList, "b".toList, "c".toList, 16777217⟩])
      = [⟨"a".toList, "b".toList, "c".toList, [], 16777216, [], false⟩] ∧
    ParseTracks (renderTrackRecords [⟨"a".toList, "b".toList, "c".toList, 16777217⟩])
      ≠ [⟨"a".toList, "b".toList, "c".toList, [], 16777217, [], false⟩] := by
  decide

/-- Claim C7, amended: for every list of track records in which id and title are non-empty, the
three strings hold no double quote, backslash or brace and `0 ≤ duration < 2^31`, `ParseTracks`
on the compact text of the list returns exactly one Track per record, in order, with videoId,
title and artist equal to the record's, album and thumbnail empty, isVideo false, and duration
equal to the record's converted to `float`, which is the record's own duration whenever that is
at most `2^24`. -/
theorem parseTracks_compact_records (rs : List TrackRecord)
    (h : ∀ r ∈ rs, r.id ≠ [] ∧ r.title ≠ [] ∧ PlainText r.id ∧ PlainText r.title ∧
      PlainText r.artist ∧ r.duration < 2147483648) :
    ParseTracks (renderTrackRecords rs) = rs.map recordTrack ∧
      ∀ r ∈ rs, r.duration ≤ 16777216 → (recordTrack r).duration = r.duration := by
  have hplain : ∀ r ∈ rs, PlainObj (recordObject r) := fun r hr =>
    recordObject_plain r (h r hr).2.2.1 (h r hr).2.2.2.1 (h r hr).2.2.2.2.1 (h r hr).2.2.2.2.2
  constructor
  · rw [ParseTracks_eq, renderTrackRecords_eq,
      ExtractArray_renderArr _ (fun o ho => by
        obtain ⟨r, hr, rfl⟩ := List.mem_map.mp ho
        exact hplain r hr),
      List.map_map, List.filter_map, List.map_map]
    rw [List.filter_eq_self.mpr]
    · apply List.map_congr_left
      intro r hr
      exact trackOfItem_record r (hplain r hr)
    · intro r hr
      have ht := trackOfItem_record r (hplain r hr)
      have hv : ExtractString (renderObj (recordObject r)) "videoId".toList = r.id :=
        congrArg Track.videoId ht
      have hti : ExtractString (renderObj (recordObject r)) "title".toList = r.title :=
        congrArg Track.title ht
      simp only [Function.comp_apply, hv, hti, decide_eq_true_eq]
      exact ⟨(h r hr).1, (h r hr).2.1⟩
  · intro r _ hd
    exact floatOfInt_small r.duration (by simpa using hd)

/-- Claim C7 at its own witness: `[{"videoId":"abc","title":"Song","artist":"Band","duration":180}]`
yields the single Track abc / Song / Band / 180 / isVideo false. -/
theorem parseTracks_compact_records_witness :
    renderTrackRecords [⟨"abc".toList, "Song".toList, "Band".toList, 180⟩]
      = "[\x7b\"videoId\":\"abc\",\"title\":\"Song\",\"artist\":\"Band\",\"duration\":180\x7d]".toList ∧
    ParseTracks (renderTrackRecords [⟨"abc".toList, "Song".toList, "Band".toList, 180⟩])
      = [⟨"abc".toList, "Song".toList, "Band".toList, [], 180, [], false⟩] :=
  ⟨by decide,
    (parseTracks_compact_records [⟨"abc".toList, "Song".toList, "Band".toList, 180⟩]
      (by decide)).1.trans (by decide)⟩

/-! ## `ExtractInt` reads a decimal integer -/

theorem stoi_congr (s s' : Str) (h : s.dropWhile isspace = s'.dropWhile isspace) :
    stoi s = stoi s' := by
  unfold stoi
  simp only [h]

theorem dropWhile_spaces (m : Nat) (x : Str) :
    (List.replicate m ' ' ++ x).dropWhile isspace = x.dropWhile isspace := by
  induction m with
  | zero => rfl
  | succ m ih =>
    have hsp : isspace ' ' = true := by decide
    rw [List.replicate_succ, List.cons_append, List.dropWhile_cons, hsp, if_pos rfl, ih]

/-- Claim C11: for every `int` `n`, when the first occurrence of `"k":` in `doc` is followed by
any number of spaces, the decimal text of `n` and one of `,`, `}` or a newline, `ExtractInt`
returns `n`. -/
theorem extractInt_reads_decimal (n : Int) (doc k : Str) (p m : Nat) (t : Char) (rest : Str)
    (hlo : -2147483648 ≤ n) (hhi : n < 2147483648)
    (hocc : FirstOccurrence (keyColon k) doc p)
    (hd : doc.drop (p + (keyColon k).length)
      = List.replicate m ' ' ++ decimalInt n ++ t :: rest)
    (ht : t = ',' ∨ t = '}' ∨ t = '\n') :
    ExtractInt doc k = n := by
  have hf := (find_zero_eq_some_iff doc _ p).mpr hocc
  have hterm : ∀ c ∈ List.replicate m ' ' ++ decimalInt n, c ∉ [',', '}', '\n'] := by
    intro c hc
    rcases List.mem_append.mp hc with h | h
    · rw [(List.mem_replicate.mp h).2]; decide
    · exact decimalInt_no_terminator n c h
  have ht' : t ∈ [',', '}', '\n'] := by
    rcases ht with e | e | e <;> rw [e] <;> decide
  have hstoi : stoi (List.replicate m ' ' ++ decimalInt n) = .ok n := by
    rw [stoi_congr _ _ (dropWhile_spaces m (decimalInt n))]
    exact stoi_decimalInt n hlo (by omega)
  simp only [keyColon] at hf hd
  unfold ExtractInt
  simp only [hf, reduceCtorEq, if_false, find_first_of, substr, hd]
  rw [find_first_ofAux_skip _ _ _ _ _ hterm ht']
  simp only [Nat.add_sub_cancel_left, List.take_left, hstoi]

/-- Claim C11 at `{"count": -42,"x":1}` with key `count`: one space, then `-42`, then a
comma. -/
theorem extractInt_reads_decimal_witness :
    ExtractInt "\x7b\"count\": -42,\"x\":1\x7d".toList "count".toList = -42 :=
  extractInt_reads_decimal (-42) "\x7b\"count\": -42,\"x\":1\x7d".toList "count".toList 1 1 ','
    "\"x\":1\x7d".toList (by decide) (by decide) (by decide) (by decide) (by decide)

/-! ## The sign of a Track's duration -/

theorem ulpExp_div_pos (fuel m : Nat) (hm : 0 < m) : 0 < m / 2 ^ ulpExp fuel m := by
  induction fuel generalizing m with
  | zero => simpa [ulpExp] using hm
  | succ fuel ih =>
    unfold ulpExp
    by_cases h : m < 16777216
    · rw [if_pos h]; simpa using hm
    · rw [if_neg h, pow_succ, Nat.mul_comm, ← Nat.div_div_eq_div_mul]
      exact ih (m / 2) (by omega)

/-- The conversion to `float` keeps the sign of an `int`. -/
theorem floatOfInt_nonneg_iff (n : Int) : 0 ≤ floatOfInt n ↔ 0 ≤ n := by
  unfold floatOfInt
  simp only
  constructor
  · intro h
    by_contra hn
    have hneg : n < 0 := by omega
    have hq := ulpExp_div_pos 8 n.natAbs (by omega)
    have hpow : 0 < 2 ^ ulpExp 8 n.natAbs := Nat.pow_pos (by norm_num)
    have hq1 : 0 < (if 2 ^ ulpExp 8 n.natAbs < 2 * (n.natAbs % 2 ^ ulpExp 8 n.natAbs) ∨
        2 * (n.natAbs % 2 ^ ulpExp 8 n.natAbs) = 2 ^ ulpExp 8 n.natAbs ∧
          n.natAbs / 2 ^ ulpExp 8 n.natAbs % 2 = 1
        then n.natAbs / 2 ^ ulpExp 8 n.natAbs + 1 else n.natAbs / 2 ^ ulpExp 8 n.natAbs) := by
      split <;> omega
    have hprod := Nat.mul_pos hq1 hpow
    rw [Int.sign_eq_neg_one_of_neg hneg] at h
    have : (0 : Int) < ((_ * 2 ^ ulpExp 8 n.natAbs : Nat) : Int) := Int.ofNat_pos.mpr hprod
    omega
  · intro h
    have hs : 0 ≤ Int.sign n := Int.sign_nonneg.mpr h
    exact Int.mul_nonneg hs (Int.ofNat_nonneg _)

/-- Claim C12, as stated, fails: the response `[{"videoId":"a","title":"b","duration":-5}]`
yields one Track, whose duration is -5. -/
theorem parseTracks_negative_duration :
    ParseTracks "[\x7b\"videoId\":\"a\",\"title\":\"b\",\"duration\":-5\x7d]".toList
      = [⟨"a".toList, "b".toList, [], [], -5, [], false⟩] ∧
    ¬ ∀ t ∈ ParseTracks "[\x7b\"videoId\":\"a\",\"title\":\"b\",\"duration\":-5\x7d]".toList,
      0 ≤ t.duration := by
  decide

/-- Claim C12, amended: the duration of every Track returned by `ParseTracks` is the `float`
of the integer that `ExtractInt` reads for `duration` in the item of the Track, and it is
non-negative exactly when that integer is non-negative. -/
theorem parseTracks_duration_sign (json : Str) (t : Track) (ht : t ∈ ParseTracks json) :
    ∃ item ∈ ExtractArray json, t = trackOfItem item ∧
      t.duration = floatOfInt (ExtractInt item "duration".toList) ∧
      (0 ≤ t.duration ↔ 0 ≤ ExtractInt item "duration".toList) := by
  rw [ParseTracks_eq, List.mem_map] at ht
  obtain ⟨item, hitem, rfl⟩ := ht
  exact ⟨item, (List.mem_filter.mp hitem).1, rfl, rfl, floatOfInt_nonneg_iff _⟩

/-- Claim C12 amended, at the response `[{"videoId":"a","title":"b","duration":-5}]` and its
Track. -/
theorem parseTracks_duration_sign_witness :
    ∃ item ∈ ExtractArray "[\x7b\"videoId\":\"a\",\"title\":\"b\",\"duration\":-5\x7d]".toList,
      (⟨"a".toList, "b".toList, [], [], -5, [], false⟩ : Track) = trackOfItem item ∧
      (-5 : Int) = floatOfInt (ExtractInt item "duration".toList) ∧
      (0 ≤ (-5 : Int) ↔ 0 ≤ ExtractInt item "duration".toList) :=
  parseTracks_duration_sign "[\x7b\"videoId\":\"a\",\"title\":\"b\",\"duration\":-5\x7d]".toList
    ⟨"a".toList, "b".toList, [], [], -5, [], false⟩ (by decide)

/-! ## `UrlEncode` can be decoded -/

set_option maxRecDepth 100000 in
theorem hexVal_specHexDigit : ∀ v < 256,
    hexVal (specHexDigit (v / 16)) * 16 + hexVal (specHexDigit (v % 16)) = v ∧
      UrlSafe (specHexDigit (v / 16)) ∧ UrlSafe (specHexDigit (v % 16)) := by
  decide

theorem UrlDecode_plain (c : Char) (rest : Str) (h1 : c ≠ '%') (h2 : c ≠ '+') :
    UrlDecode (c :: rest) = c :: UrlDecode rest := by
  rw [UrlDecode]
  · intro h l r e _; exact h1 e
  · exact h2

theorem UrlDecode_encodeChar (c : Char) (rest : Str) (hc : c.toNat < 256) :
    UrlDecode (UrlEncodeSpecChar c ++ rest) = c :: UrlDecode rest := by
  unfold UrlEncodeSpecChar
  by_cases h : ('a' ≤ c ∧ c ≤ 'z') ∨ ('A' ≤ c ∧ c ≤ 'Z') ∨ ('0' ≤ c ∧ c ≤ '9') ∨
      c = '-' ∨ c = '_' ∨ c = '.' ∨ c = '~'
  · rw [if_pos h]
    have h1 : c ≠ '%' := by
      rintro rfl
      revert h
      decide
    have h2 : c ≠ '+' := by
      rintro rfl
      revert h
      decide
    exact UrlDecode_plain c rest h1 h2
  · rw [if_neg h]
    by_cases hs : c = ' '
    · rw [if_pos hs, hs]
      exact UrlDecode.eq_3 rest
    · rw [if_neg hs]
      have hv := (hexVal_specHexDigit c.toNat hc).1
      rw [List.cons_append, List.cons_append, List.cons_append, List.nil_append, UrlDecode.eq_2,
        hv, Char.ofNat_toNat]

theorem UrlEncodeSpecChar_safe (c : Char) (hc : c.toNat < 256) :
    ∀ x ∈ UrlEncodeSpecChar c, UrlSafe x := by
  intro x hx
  unfold UrlEncodeSpecChar at hx
  split at hx
  · rename_i h
    rw [List.mem_singleton.mp hx]
    unfold UrlSafe
    tauto
  · split at hx
    · rw [List.mem_singleton.mp hx]; decide
    · have hv := hexVal_specHexDigit c.toNat hc
      simp only [List.mem_cons, List.mem_nil_iff, or_false] at hx
      rcases hx with rfl | rfl | rfl
      · decide
      · exact hv.2.1
      · exact hv.2.2

/-- Decoding undoes `UrlEncode` on every byte string. -/
theorem UrlDecode_UrlEncode (s : Str) (hs : ∀ c ∈ s, c.toNat < 256) :
    UrlDecode (UrlEncode s) = s := by
  induction s with
  | nil => rfl
  | cons c cs ih =>
    have hc := hs c (List.mem_cons_self c cs)
    rw [UrlEncode_cons, UrlEncodeChar_eq_spec c hc, UrlDecode_encodeChar c _ hc,
      ih (fun d hd => hs d (List.mem_cons_of_mem c hd))]

theorem UrlEncode_safe (s : Str) (hs : ∀ c ∈ s, c.toNat < 256) :
    ∀ x ∈ UrlEncode s, UrlSafe x := by
  induction s with
  | nil => intro x hx; simp [UrlEncode] at hx
  | cons c cs ih =>
    have hc := hs c (List.mem_cons_self c cs)
    intro x hx
    rw [UrlEncode_cons, UrlEncodeChar_eq_spec c hc, List.mem_append] at hx
    rcases hx with hx | hx
    · exact UrlEncodeSpecChar_safe c hc x hx
    · exact ih (fun d hd => hs d (List.mem_cons_of_mem c hd)) x hx

/-- Claim C18: `UrlEncode` is injective on byte strings, and every character it puts out is an
ASCII letter, a digit, or one of `-`, `_`, `.`, `~`, `+`, `%`. -/
theorem UrlEncode_injective (a b : Str) (ha : ∀ c ∈ a, c.toNat < 256)
    (hb : ∀ c ∈ b, c.toNat < 256) :
    (UrlEncode a = UrlEncode b → a = b) ∧ ∀ x ∈ UrlEncode a, UrlSafe x := by
  refine ⟨?_, UrlEncode_safe a ha⟩
  intro h
  rw [← UrlDecode_UrlEncode a ha, ← UrlDecode_UrlEncode b hb, h]

/-- Claim C18 at the byte strings `a b` and `a+b`, whose encodings `a+b` and `a%2Bb` differ. -/
theorem UrlEncode_injective_witness :
    (UrlEncode "a b".toList = UrlEncode "a+b".toList → "a b".toList = "a+b".toList) ∧
      UrlEncode "a b".toList = "a+b".toList ∧ UrlEncode "a+b".toList = "a%2Bb".toList ∧
      ∀ x ∈ UrlEncode "a b".toList, UrlSafe x :=
  ⟨(UrlEncode_injective "a b".toList "a+b".toList (by decide) (by decide)).1, by decide,
    by decide, (UrlEncode_injective "a b".toList "a+b".toList (by decide) (by decide)).2⟩

/-! ## Catalog operations run behind `EnsureBackendRunning` -/

theorem newEvents_of_append (before after : YouTubeMusicPlugin) (l : List Event)
    (h : after.trace = before.trace ++ l) : newEvents before after = l := by
  unfold newEvents
  rw [h, List.drop_left]

/-- What `launchBackend` does: it records the launch and, when it succeeded, one probe; it
returns true only after a probe that succeeded, and then the flag is set. -/
theorem launchBackend_spec (env : Env) (self : YouTubeMusicPlugin) :
    ∃ new, (YouTubeMusicPlugin.launchBackend env self).2.trace = self.trace ++ new ∧
      (∀ e ∈ new, isCatalogRequest e = false ∧ isOpenUrl e = false) ∧
      ((YouTubeMusicPlugin.launchBackend env self).1 = true →
        ∃ e ∈ new, isAliveProbe e = true) ∧
      (YouTubeMusicPlugin.launchBackend env self).2.searchResults = self.searchResults ∧
      (YouTubeMusicPlugin.launchBackend env self).2.authPromptShown = self.authPromptShown := by
  unfold YouTubeMusicPlugin.launchBackend
  by_cases hl : env.launch self.trace = true
  · rw [if_pos hl]
    refine ⟨[Event.launch true, Event.get ['/'] (env.get (self.trace ++ [Event.launch true]) ['/'])],
      by simp [YouTubeMusicPlugin.IsServerAlive, YouTubeMusicPlugin.Get], ?_, ?_, rfl, rfl⟩
    · intro e he
      simp only [List.mem_cons, List.mem_nil_iff, or_false] at he
      rcases he with rfl | rfl <;> exact ⟨rfl, rfl⟩
    · intro h
      refine ⟨_, List.mem_cons_of_mem _ (List.mem_singleton.mpr rfl), ?_⟩
      simpa [isAliveProbe, YouTubeMusicPlugin.IsServerAlive, YouTubeMusicPlugin.Get] using h
  · rw [if_neg hl]
    refine ⟨[Event.launch false], rfl, ?_, by simp, rfl, rfl⟩
    intro e he
    rw [List.mem_singleton.mp he]
    exact ⟨rfl, rfl⟩

/-- What `EnsureBackendRunning` does to the outside world and to the plugin: only probes and
launches, success only after a probe that succeeded, caches and prompt flag untouched. -/
theorem EnsureBackendRunning_spec (env : Env) (self : YouTubeMusicPlugin) :
    ∃ new, (YouTubeMusicPlugin.EnsureBackendRunning env self).2.trace = self.trace ++ new ∧
      (∀ e ∈ new, isCatalogRequest e = false ∧ isOpenUrl e = false) ∧
      ((YouTubeMusicPlugin.EnsureBackendRunning env self).1 = true →
        ∃ e ∈ new, isAliveProbe e = true) ∧
      (YouTubeMusicPlugin.EnsureBackendRunning env self).2.searchResults
        = self.searchResults ∧
      (YouTubeMusicPlugin.EnsureBackendRunning env self).2.authPromptShown
        = self.authPromptShown := by
  unfold YouTubeMusicPlugin.EnsureBackendRunning
  by_cases hb : self.backendRunning = true
  · simp only [hb, if_true]
    have hprobe : (∀ e ∈ [Event.get ['/'] (env.get self.trace ['/'])],
        isCatalogRequest e = false ∧ isOpenUrl e = false) := by
      intro e he
      rw [List.mem_singleton.mp he]
      exact ⟨rfl, rfl⟩
    by_cases ha : (YouTubeMusicPlugin.IsServerAlive env self).1 = true
    · rw [if_pos ha]
      refine ⟨[Event.get ['/'] (env.get self.trace ['/'])], rfl, hprobe, ?_, rfl, rfl⟩
      intro _
      refine ⟨_, List.mem_singleton.mpr rfl, ?_⟩
      simpa [isAliveProbe, YouTubeMusicPlugin.IsServerAlive, YouTubeMusicPlugin.Get] using ha
    · rw [if_neg ha]
      by_cases hs : env.scriptExists (YouTubeMusicPlugin.IsServerAlive env self).2.trace = true
      · rw [if_pos hs]
        obtain ⟨new, h1, h2, h3, h4, h5⟩ :=
          launchBackend_spec env (YouTubeMusicPlugin.IsServerAlive env self).2
        refine ⟨Event.get ['/'] (env.get self.trace ['/']) :: new, ?_, ?_, ?_, h4, h5⟩
        · rw [h1]
          simp [YouTubeMusicPlugin.IsServerAlive, YouTubeMusicPlugin.Get]
        · intro e he
          rcases List.mem_cons.mp he with rfl | he
          · exact ⟨rfl, rfl⟩
          · exact h2 e he
        · intro h
          obtain ⟨e, he, hp⟩ := h3 h
          exact ⟨e, List.mem_cons_of_mem _ he, hp⟩
      · rw [if_neg hs]
        exact ⟨[Event.get ['/'] (env.get self.trace ['/'])], rfl, hprobe, by simp, rfl, rfl⟩
  · simp only [hb, Bool.false_eq_true, if_false]
    by_cases hs : env.scriptExists self.trace = true
    · rw [if_pos hs]
      exact launchBackend_spec env self
    · rw [if_neg hs]
      exact ⟨[], by simp, by simp, by simp, rfl, rfl⟩

/-- An operation that, after `EnsureBackendRunning`, performs the actions `more`, and none when
the backend was not ensured: it issues a catalog request only after a successful ensure and a
successful probe, and none when the ensure failed. -/
theorem guarded_operation (env : Env) (self after : YouTubeMusicPlugin) (more : List Event)
    (htrace : after.trace = (YouTubeMusicPlugin.EnsureBackendRunning env self).2.trace ++ more)
    (hfail : (YouTubeMusicPlugin.EnsureBackendRunning env self).1 = false → more = []) :
    ((∃ e ∈ newEvents self after, isCatalogRequest e = true) →
      (YouTubeMusicPlugin.EnsureBackendRunning env self).1 = true ∧
        ∃ e ∈ newEvents self after, isAliveProbe e = true) ∧
    ((YouTubeMusicPlugin.EnsureBackendRunning env self).1 = false →
      ∀ e ∈ newEvents self after, isCatalogRequest e = false) := by
  obtain ⟨new, h1, h2, h3, -, -⟩ := EnsureBackendRunning_spec env self
  have hnew : newEvents self after = new ++ more :=
    newEvents_of_append self after _ (by rw [htrace, h1, List.append_assoc])
  have hno : (YouTubeMusicPlugin.EnsureBackendRunning env self).1 = false →
      ∀ e ∈ newEvents self after, isCatalogRequest e = false := by
    intro hf e he
    rw [hnew, hfail hf, List.append_nil] at he
    exact (h2 e he).1
  refine ⟨?_, hno⟩
  rintro ⟨e, he, hc⟩
  have hok : (YouTubeMusicPlugin.EnsureBackendRunning env self).1 = true := by
    by_contra hf
    have := hno (by simpa using hf) e he
    rw [this] at hc
    exact absurd hc (by simp)
  obtain ⟨p, hp, hpa⟩ := h3 hok
  exact ⟨hok, p, by rw [hnew]; exact List.mem_append_left _ hp, hpa⟩

theorem OnSearch_guarded (env : Env) (self : YouTubeMusicPlugin) (search : Str) :
    ∃ more, (YouTubeMusicPlugin.OnSearch env self search).plugin.trace
        = (YouTubeMusicPlugin.EnsureBackendRunning env self).2.trace ++ more ∧
      ((YouTubeMusicPlugin.EnsureBackendRunning env self).1 = false → more = []) := by
  unfold YouTubeMusicPlugin.OnSearch
  by_cases h : (YouTubeMusicPlugin.EnsureBackendRunning env self).1 = true
  · rw [if_pos h]
    simp only
    split
    · exact ⟨_, rfl, fun hf => by rw [h] at hf; exact absurd hf (by simp)⟩
    · exact ⟨_, rfl, fun hf => by rw [h] at hf; exact absurd hf (by simp)⟩
  · rw [if_neg h]
    exact ⟨[], by simp, fun _ => rfl⟩

theorem GetStreamUrl_guarded (env : Env) (self : YouTubeMusicPlugin) (uniqueId : Str) :
    ∃ more, (YouTubeMusicPlugin.GetStreamUrl env self uniqueId).2.trace
        = (YouTubeMusicPlugin.EnsureBackendRunning env self).2.trace ++ more ∧
      ((YouTubeMusicPlugin.EnsureBackendRunning env self).1 = false → more = []) := by
  unfold YouTubeMusicPlugin.GetStreamUrl
  by_cases h : (YouTubeMusicPlugin.EnsureBackendRunning env self).1 = true
  · rw [if_pos h]
    exact ⟨_, rfl, fun hf => by rw [h] at hf; exact absurd hf (by simp)⟩
  · rw [if_neg h]
    exact ⟨[], by simp, fun _ => rfl⟩

theorem GetFolder_guarded (env : Env) (self : YouTubeMusicPlugin) (folderUniqueId : Str) :
    ∃ more, (YouTubeMusicPlugin.GetFolder env self folderUniqueId).plugin.trace
        = (YouTubeMusicPlugin.EnsureBackendRunning env self).2.trace ++ more ∧
      ((YouTubeMusicPlugin.EnsureBackendRunning env self).1 = false → more = []) := by
  unfold YouTubeMusicPlugin.GetFolder
  by_cases h : (YouTubeMusicPlugin.EnsureBackendRunning env self).1 = true
  · have hno : (YouTubeMusicPlugin.EnsureBackendRunning env self).1 = false → False := by
      intro hf; rw [h] at hf; exact absurd hf (by simp)
    rw [if_pos h]
    simp only
    split
    · exact ⟨[], by simp, fun hf => (hno hf).elim⟩
    · split
      · split
        · exact ⟨_, rfl, fun hf => (hno hf).elim⟩
        · exact ⟨_, rfl, fun hf => (hno hf).elim⟩
      · split
        · exact ⟨_, rfl, fun hf => (hno hf).elim⟩
        · exact ⟨_, rfl, fun hf => (hno hf).elim⟩
  · rw [if_neg h]
    exact ⟨[], by simp, fun _ => rfl⟩

/-- Claim C13: each of `OnSearch`, `GetStreamUrl` and `GetFolder`, from every plugin state and
in every outside world, issues a catalog request only if `EnsureBackendRunning` returned
success in that call and a liveness probe succeeded during that call; when
`EnsureBackendRunning` fails, the operation returns `E_FAIL` (`GetStreamUrl` with the message
"Backend not available"), issues no catalog request and leaves the cached search results as
they were. -/
theorem catalog_requests_need_backend (env : Env) (self : YouTubeMusicPlugin) (arg : Str) :
    (((∃ e ∈ newEvents self (YouTubeMusicPlugin.OnSearch env self arg).plugin,
          isCatalogRequest e = true) →
        (YouTubeMusicPlugin.EnsureBackendRunning env self).1 = true ∧
          ∃ e ∈ newEvents self (YouTubeMusicPlugin.OnSearch env self arg).plugin,
            isAliveProbe e = true) ∧
      ((YouTubeMusicPlugin.EnsureBackendRunning env self).1 = false →
        (YouTubeMusicPlugin.OnSearch env self arg).hr = .E_FAIL ∧
        (∀ e ∈ newEvents self (YouTubeMusicPlugin.OnSearch env self arg).plugin,
          isCatalogRequest e = false) ∧
        (YouTubeMusicPlugin.OnSearch env self arg).plugin.searchResults
          = self.searchResults)) ∧
    (((∃ e ∈ newEvents self (YouTubeMusicPlugin.GetStreamUrl env self arg).2,
          isCatalogRequest e = true) →
        (YouTubeMusicPlugin.EnsureBackendRunning env self).1 = true ∧
          ∃ e ∈ newEvents self (YouTubeMusicPlugin.GetStreamUrl env self arg).2,
            isAliveProbe e = true) ∧
      ((YouTubeMusicPlugin.EnsureBackendRunning env self).1 = false →
        (YouTubeMusicPlugin.GetStreamUrl env self arg).1
          = ⟨.E_FAIL, none, some "Backend not available".toList⟩ ∧
        (∀ e ∈ newEvents self (YouTubeMusicPlugin.GetStreamUrl env self arg).2,
          isCatalogRequest e = false) ∧
        (YouTubeMusicPlugin.GetStreamUrl env self arg).2.searchResults
          = self.searchResults)) ∧
    (((∃ e ∈ newEvents self (YouTubeMusicPlugin.GetFolder env self arg).plugin,
          isCatalogRequest e = true) →
        (YouTubeMusicPlugin.EnsureBackendRunning env self).1 = true ∧
          ∃ e ∈ newEvents self (YouTubeMusicPlugin.GetFolder env self arg).plugin,
            isAliveProbe e = true) ∧
      ((YouTubeMusicPlugin.EnsureBackendRunning env self).1 = false →
        (YouTubeMusicPlugin.GetFolder env self arg).hr = .E_FAIL ∧
        (∀ e ∈ newEvents self (YouTubeMusicPlugin.GetFolder env self arg).plugin,
          isCatalogRequest e = false) ∧
        (YouTubeMusicPlugin.GetFolder env self arg).plugin.searchResults
          = self.searchResults)) := by
  obtain ⟨-, -, -, -, hsr, -⟩ := EnsureBackendRunning_spec env self
  obtain ⟨m1, ht1, hf1⟩ := OnSearch_guarded env self arg
  obtain ⟨m2, ht2, hf2⟩ := GetStreamUrl_guarded env self arg
  obtain ⟨m3, ht3, hf3⟩ := GetFolder_guarded env self arg
  have g1 := guarded_operation env self _ m1 ht1 hf1
  have g2 := guarded_operation env self _ m2 ht2 hf2
  have g3 := guarded_operation env self _ m3 ht3 hf3
  refine ⟨⟨g1.1, fun hf => ⟨?_, g1.2 hf, ?_⟩⟩, ⟨g2.1, fun hf => ⟨?_, g2.2 hf, ?_⟩⟩,
    ⟨g3.1, fun hf => ⟨?_, g3.2 hf, ?_⟩⟩⟩
  · simp [YouTubeMusicPlugin.OnSearch, hf]
  · simp [YouTubeMusicPlugin.OnSearch, hf, hsr]
  · simp [YouTubeMusicPlugin.GetStreamUrl, hf, YTMusic.GetStreamUrl]
  · simp [YouTubeMusicPlugin.GetStreamUrl, hf, hsr]
  · simp [YouTubeMusicPlugin.GetFolder, hf]
  · simp [YouTubeMusicPlugin.GetFolder, hf, hsr]

/-- Claim C13 at a fresh plugin in a world with no backend and no `main.py`: `OnSearch` fails,
issues no catalog request and keeps the cached search results. -/
theorem catalog_requests_need_backend_witness :
    (YouTubeMusicPlugin.OnSearch ⟨fun _ _ => [], fun _ => false, fun _ => false⟩
        YouTubeMusicPlugin.construct "x".toList).hr = .E_FAIL ∧
      (∀ e ∈ newEvents YouTubeMusicPlugin.construct
          (YouTubeMusicPlugin.OnSearch ⟨fun _ _ => [], fun _ => false, fun _ => false⟩
            YouTubeMusicPlugin.construct "x".toList).plugin,
        isCatalogRequest e = false) ∧
      (YouTubeMusicPlugin.OnSearch ⟨fun _ _ => [], fun _ => false, fun _ => false⟩
        YouTubeMusicPlugin.construct "x".toList).plugin.searchResults
        = YouTubeMusicPlugin.construct.searchResults :=
  (catalog_requests_need_backend ⟨fun _ _ => [], fun _ => false, fun _ => false⟩
    YouTubeMusicPlugin.construct "x".toList).1.2 (by decide)

/-! ## The cached flag `backendRunning` and the launches of `EnsureBackendRunning` -/

/-- Claim C14, on the code: a fresh plugin whose first call launches the backend and finds it
alive has `backendRunning` set; when the backend then stops answering and `main.py` is gone,
the second call probes, launches nothing and returns failure, and `backendRunning` is still
set. -/
theorem ensureBackendRunning_stale_flag :
    (YouTubeMusicPlugin.EnsureBackendRunning
        ⟨fun tr _ => if tr = [Event.launch true] then "\x7b\"status\":\"online\"\x7d".toList
          else [], fun tr => decide (tr = []), fun _ => true⟩
        YouTubeMusicPlugin.construct).1 = true ∧
      (YouTubeMusicPlugin.EnsureBackendRunning
        ⟨fun tr _ => if tr = [Event.launch true] then "\x7b\"status\":\"online\"\x7d".toList
          else [], fun tr => decide (tr = []), fun _ => true⟩
        (YouTubeMusicPlugin.EnsureBackendRunning
          ⟨fun tr _ => if tr = [Event.launch true] then "\x7b\"status\":\"online\"\x7d".toList
            else [], fun tr => decide (tr = []), fun _ => true⟩
          YouTubeMusicPlugin.construct).2)
        = (false,
            { searchResults := [], userPlaylists := [], backendRunning := true,
              pythonProcess := true, authPromptShown := false,
              trace := [Event.launch true,
                Event.get ['/'] "\x7b\"status\":\"online\"\x7d".toList,
                Event.get ['/'] []] }) := by
  decide

theorem countP_isLaunch_probe (body : Str) :
    List.countP isLaunch [Event.get ['/'] body] = 0 := rfl

/-- The launches of `launchBackend`: at most one. -/
theorem launchBackend_launches (env : Env) (self : YouTubeMusicPlugin) :
    (newEvents self (YouTubeMusicPlugin.launchBackend env self).2).countP isLaunch ≤ 1 := by
  unfold YouTubeMusicPlugin.launchBackend
  by_cases hl : env.launch self.trace = true
  · rw [if_pos hl, newEvents_of_append _ _
      [Event.launch true, Event.get ['/'] (env.get (self.trace ++ [Event.launch true]) ['/'])]
      (by simp [YouTubeMusicPlugin.IsServerAlive, YouTubeMusicPlugin.Get])]
    simp [List.countP_cons, isLaunch]
  · rw [if_neg hl, newEvents_of_append _ _ [Event.launch false] rfl]
    decide

/-- Claim C15, on the code: a fresh plugin, in a world where a backend already answers `GET /`
with a status body, does not probe and launches a backend process. -/
theorem ensureBackendRunning_launches_unprobed :
    isAliveBody ((⟨fun _ ep => if ep = ['/'] then "\x7b\"status\":\"online\"\x7d".toList else [],
        fun _ => true, fun _ => true⟩ : Env).get [] ['/']) = true ∧
      newEvents YouTubeMusicPlugin.construct
        (YouTubeMusicPlugin.EnsureBackendRunning
          ⟨fun _ ep => if ep = ['/'] then "\x7b\"status\":\"online\"\x7d".toList else [],
            fun _ => true, fun _ => true⟩ YouTubeMusicPlugin.construct).2
        = [Event.launch true, Event.get ['/'] "\x7b\"status\":\"online\"\x7d".toList] := by
  decide

/-- When `EnsureBackendRunning` launches: only if `backendRunning` is not set or the liveness
probe of the call fails; with `backendRunning` set and the backend answering `GET /` with a
status body, the call succeeds and launches nothing; no call launches more than one
process. -/
theorem ensureBackendRunning_launches_only_if (env : Env) (self : YouTubeMusicPlugin) :
    ((∃ e ∈ newEvents self (YouTubeMusicPlugin.EnsureBackendRunning env self).2,
        isLaunch e = true) →
      self.backendRunning = false ∨ isAliveBody (env.get self.trace ['/']) = false) ∧
    (self.backendRunning = true → isAliveBody (env.get self.trace ['/']) = true →
      (YouTubeMusicPlugin.EnsureBackendRunning env self).1 = true ∧
      ∀ e ∈ newEvents self (YouTubeMusicPlugin.EnsureBackendRunning env self).2,
        isLaunch e = false) ∧
    (newEvents self (YouTubeMusicPlugin.EnsureBackendRunning env self).2).countP isLaunch
      ≤ 1 := by
  have hquiet : self.backendRunning = true → isAliveBody (env.get self.trace ['/']) = true →
      (YouTubeMusicPlugin.EnsureBackendRunning env self).1 = true ∧
      ∀ e ∈ newEvents self (YouTubeMusicPlugin.EnsureBackendRunning env self).2,
        isLaunch e = false := by
    intro hb ha
    have ha' : (YouTubeMusicPlugin.IsServerAlive env self).1 = true := ha
    have he : YouTubeMusicPlugin.EnsureBackendRunning env self
        = (true, (YouTubeMusicPlugin.IsServerAlive env self).2) := by
      simp [YouTubeMusicPlugin.EnsureBackendRunning, hb, ha']
    rw [he]
    refine ⟨rfl, ?_⟩
    rw [newEvents_of_append _ _ [Event.get ['/'] (env.get self.trace ['/'])] rfl]
    intro e he
    rw [List.mem_singleton.mp he]
    rfl
  refine ⟨?_, hquiet, ?_⟩
  · rintro ⟨e, he, hl⟩
    by_contra hcon
    push_neg at hcon
    have hb : self.backendRunning = true := by simpa using hcon.1
    have ha : isAliveBody (env.get self.trace ['/']) = true := by simpa using hcon.2
    have := (hquiet hb ha).2 e he
    rw [this] at hl
    exact absurd hl (by simp)
  · unfold YouTubeMusicPlugin.EnsureBackendRunning
    by_cases hb : self.backendRunning = true
    · simp only [hb, if_true]
      have hp : (YouTubeMusicPlugin.IsServerAlive env self).2.trace
          = self.trace ++ [Event.get ['/'] (env.get self.trace ['/'])] := rfl
      split
      · rw [newEvents_of_append _ _ _ hp, countP_isLaunch_probe]; omega
      · split
        · have h1 := launchBackend_launches env (YouTubeMusicPlugin.IsServerAlive env self).2
          obtain ⟨new, hn, -⟩ :=
            launchBackend_spec env (YouTubeMusicPlugin.IsServerAlive env self).2
          rw [newEvents_of_append _ _ _ hn] at h1
          rw [newEvents_of_append _ _ (Event.get ['/'] (env.get self.trace ['/']) :: new)
            (by rw [hn, hp]; simp)]
          rw [List.countP_cons]
          simpa [isLaunch] using h1
        · rw [newEvents_of_append _ _ _ hp, countP_isLaunch_probe]; omega
    · simp only [hb, Bool.false_eq_true, if_false]
      split
      · exact launchBackend_launches env self
      · rw [newEvents_of_append _ _ [] (by simp)]; decide

/-! ## The config page is opened at most once -/

theorem Quiet_refl (a : YouTubeMusicPlugin) : Quiet a a :=
  ⟨[], by simp, by simp, rfl⟩

theorem Quiet_trans {a b c : YouTubeMusicPlugin} (h1 : Quiet a b) (h2 : Quiet b c) :
    Quiet a c := by
  obtain ⟨n1, t1, o1, f1⟩ := h1
  obtain ⟨n2, t2, o2, f2⟩ := h2
  refine ⟨n1 ++ n2, by rw [t2, t1, List.append_assoc], ?_, by rw [f2, f1]⟩
  intro e he
  rcases List.mem_append.mp he with h | h
  · exact o1 e h
  · exact o2 e h

theorem Quiet_get (env : Env) (a : YouTubeMusicPlugin) (endpoint : Str) :
    Quiet a (YouTubeMusicPlugin.Get env a endpoint).2 :=
  ⟨[Event.get endpoint (env.get a.trace endpoint)], rfl,
    fun e he => by rw [List.mem_singleton.mp he]; rfl, rfl⟩

theorem Quiet_ensure (env : Env) (a : YouTubeMusicPlugin) :
    Quiet a (YouTubeMusicPlugin.EnsureBackendRunning env a).2 := by
  obtain ⟨new, h1, h2, -, -, h5⟩ := EnsureBackendRunning_spec env a
  exact ⟨new, h1, fun e he => (h2 e he).2, h5⟩

theorem Quiet_prompted {a b : YouTubeMusicPlugin} (h : Quiet a b) (ha : PromptedOnce a) :
    PromptedOnce b := by
  obtain ⟨new, t, o, f⟩ := h
  have hz : new.countP isOpenUrl = 0 := by
    rw [List.countP_eq_zero]
    intro e he
    rw [o e he]
    simp
  unfold PromptedOnce
  rw [t, List.countP_append, hz, f]
  exact ha

/-- What one call of `EnsureAuthUI` does: it opens the config page exactly when the probe
reports not authenticated and the prompt flag is unset, and the flag is set afterwards exactly
when it was set before or the probe reported not authenticated. -/
theorem EnsureAuthUI_spec (env : Env) (self : YouTubeMusicPlugin) :
    (newEvents self (YouTubeMusicPlugin.EnsureAuthUI env self)).countP isOpenUrl
        = (if (YouTubeMusicPlugin.IsAuthenticated env self).1 = false ∧
            self.authPromptShown = false then 1 else 0) ∧
      (YouTubeMusicPlugin.EnsureAuthUI env self).authPromptShown
        = (self.authPromptShown || !(YouTubeMusicPlugin.IsAuthenticated env self).1) := by
  have ht : (YouTubeMusicPlugin.IsAuthenticated env self).2.trace = self.trace ++
      [Event.get ['/', 'a', 'u', 't', 'h', '_', 's', 't', 'a', 't', 'u', 's']
        (env.get self.trace ['/', 'a', 'u', 't', 'h', '_', 's', 't', 'a', 't', 'u', 's'])] := rfl
  have hf : (YouTubeMusicPlugin.IsAuthenticated env self).2.authPromptShown
      = self.authPromptShown := rfl
  unfold YouTubeMusicPlugin.EnsureAuthUI
  by_cases ha : (YouTubeMusicPlugin.IsAuthenticated env self).1 = true
  · rw [if_pos ha, newEvents_of_append _ _ _ ht, hf, ha]
    simp [List.countP_cons, isOpenUrl]
  · have ha' : (YouTubeMusicPlugin.IsAuthenticated env self).1 = false := by simpa using ha
    rw [if_neg ha, ha']
    unfold YouTubeMusicPlugin.OpenConfigPageIfNeeded
    by_cases hp : self.authPromptShown = true
    · rw [hf, if_pos hp, newEvents_of_append _ _ _ ht, hf, hp]
      simp [List.countP_cons, isOpenUrl]
    · have hp' : self.authPromptShown = false := by simpa using hp
      rw [hf, if_neg hp]
      rw [newEvents_of_append _ _
        [Event.get ['/', 'a', 'u', 't', 'h', '_', 's', 't', 'a', 't', 'u', 's']
          (env.get self.trace ['/', 'a', 'u', 't', 'h', '_', 's', 't', 'a', 't', 'u', 's']),
          Event.openUrl "http://127.0.0.1:8000/config".toList]
        (by simp [ht])]
      simp [List.countP_cons, isOpenUrl, hp']

theorem EnsureAuthUI_prompted (env : Env) (self : YouTubeMusicPlugin) (h : PromptedOnce self) :
    PromptedOnce (YouTubeMusicPlugin.EnsureAuthUI env self) ∧
      (self.authPromptShown = true →
        (YouTubeMusicPlugin.EnsureAuthUI env self).authPromptShown = true) := by
  obtain ⟨hc, hflag⟩ := EnsureAuthUI_spec env self
  have hq : Quiet self (YouTubeMusicPlugin.IsAuthenticated env self).2 :=
    Quiet_get env self _
  have htr : ∃ new, (YouTubeMusicPlugin.EnsureAuthUI env self).trace = self.trace ++ new := by
    unfold YouTubeMusicPlugin.EnsureAuthUI YouTubeMusicPlugin.OpenConfigPageIfNeeded
    obtain ⟨n, hn, -, -⟩ := hq
    split
    · exact ⟨n, hn⟩
    · split
      · exact ⟨n, hn⟩
      · exact ⟨n ++ [Event.openUrl "http://127.0.0.1:8000/config".toList], by
          simp [hn]⟩
  obtain ⟨new, hnew⟩ := htr
  rw [newEvents_of_append _ _ _ hnew] at hc
  refine ⟨⟨?_, ?_⟩, ?_⟩
  · rw [hnew, List.countP_append, hc]
    by_cases hp : self.authPromptShown = false
    · have := h.2 hp
      split <;> omega
    · have := h.1
      rw [if_neg (fun hh => hp hh.2)]
      omega
  · intro hafter
    rw [hflag] at hafter
    simp only [Bool.or_eq_false_iff, Bool.not_eq_false'] at hafter
    rw [hnew, List.countP_append, hc, h.2 hafter.1,
      if_neg (fun hh => by rw [hafter.2] at hh; exact absurd hh.1 (by simp))]
  · intro hp
    rw [hflag, hp]
    rfl

theorem perform_prompted (env : Env) (self : YouTubeMusicPlugin) (op : Operation)
    (h : PromptedOnce self) :
    PromptedOnce (perform env self op) ∧
      (self.authPromptShown = true → (perform env self op).authPromptShown = true) := by
  have hquiet : ∀ b, Quiet self b →
      PromptedOnce b ∧ (self.authPromptShown = true → b.authPromptShown = true) :=
    fun b hb => ⟨Quiet_prompted hb h, fun hp => by obtain ⟨_, _, _, f⟩ := hb; rw [f, hp]⟩
  have he := Quiet_ensure env self
  cases op with
  | onLoad =>
    simp only [perform, YouTubeMusicPlugin.OnLoad]
    split
    · have h1 := EnsureAuthUI_prompted env _ (Quiet_prompted he h)
      refine ⟨h1.1, fun hp => h1.2 ?_⟩
      obtain ⟨_, _, _, f⟩ := he
      rw [f, hp]
    · exact hquiet _ he
  | onSearch search =>
    simp only [perform, YouTubeMusicPlugin.OnSearch]
    split
    · split
      · exact hquiet _ (Quiet_trans he (Quiet_get env _ _))
      · obtain ⟨n, t, o, f⟩ := Quiet_trans he (Quiet_get env _
          (['/', 's', 'e', 'a', 'r', 'c', 'h', '?', 'q', '='] ++ UrlEncode search))
        exact hquiet _ ⟨n, t, o, f⟩
    · exact hquiet _ he
  | getStreamUrl uniqueId =>
    simp only [perform, YouTubeMusicPlugin.GetStreamUrl]
    split
    · exact hquiet _ (Quiet_trans he (Quiet_get env _ _))
    · exact hquiet _ he
  | getFolder folderUniqueId =>
    simp only [perform, YouTubeMusicPlugin.GetFolder]
    split
    · split
      · exact hquiet _ he
      · split
        · split
          · exact hquiet _ (Quiet_trans he (Quiet_get env _ _))
          · obtain ⟨n, t, o, f⟩ := Quiet_trans he (Quiet_get env _
              ['/', 'p', 'l', 'a', 'y', 'l', 'i', 's', 't', 's'])
            exact hquiet _ ⟨n, t, o, f⟩
        · split
          · exact hquiet _ (Quiet_trans he (Quiet_get env _ _))
          · exact hquiet _ (Quiet_trans he (Quiet_get env _ _))
    · exact hquiet _ he
  | ensureAuthUI => exact EnsureAuthUI_prompted env self h

theorem performAll_prompted (env : Env) (self : YouTubeMusicPlugin) (ops : List Operation)
    (h : PromptedOnce self) : PromptedOnce (performAll env self ops) := by
  induction ops generalizing self with
  | nil => exact h
  | cons op ops ih => exact ih (perform env self op) (perform_prompted env self op h).1

/-- Claim C16: a call of `EnsureAuthUI` opens the config page exactly when its probe reports
not authenticated and the flag `authPromptShown` is unset, and sets the flag then; no operation
resets the flag; so over every sequence of operations on a fresh plugin, in every outside world,
the config page is opened at most once. -/
theorem config_page_opened_at_most_once (env : Env) :
    (∀ self : YouTubeMusicPlugin,
      (newEvents self (YouTubeMusicPlugin.EnsureAuthUI env self)).countP isOpenUrl
          = (if (YouTubeMusicPlugin.IsAuthenticated env self).1 = false ∧
              self.authPromptShown = false then 1 else 0) ∧
        (YouTubeMusicPlugin.EnsureAuthUI env self).authPromptShown
          = (self.authPromptShown || !(YouTubeMusicPlugin.IsAuthenticated env self).1)) ∧
    (∀ (self : YouTubeMusicPlugin) (op : Operation), self.authPromptShown = true →
      (perform env self op).authPromptShown = true) ∧
    (∀ ops : List Operation,
      (performAll env YouTubeMusicPlugin.construct ops).trace.countP isOpenUrl ≤ 1) := by
  refine ⟨EnsureAuthUI_spec env, ?_, ?_⟩
  · intro self op hp
    cases op with
    | onLoad =>
      simp only [perform, YouTubeMusicPlugin.OnLoad]
      obtain ⟨_, _, _, f⟩ := Quiet_ensure env self
      split
      · rw [(EnsureAuthUI_spec env _).2, f, hp]
        rfl
      · rw [f, hp]
    | onSearch search =>
      obtain ⟨_, _, _, f⟩ := Quiet_ensure env self
      simp only [perform, YouTubeMusicPlugin.OnSearch]
      split
      · split <;> exact f.trans hp
      · exact f.trans hp
    | getStreamUrl uniqueId =>
      obtain ⟨_, _, _, f⟩ := Quiet_ensure env self
      simp only [perform, YouTubeMusicPlugin.GetStreamUrl]
      split <;> exact f.trans hp
    | getFolder folderUniqueId =>
      obtain ⟨_, _, _, f⟩ := Quiet_ensure env self
      simp only [perform, YouTubeMusicPlugin.GetFolder]
      split
      · split
        · exact f.trans hp
        · split
          · split <;> exact f.trans hp
          · split <;> exact f.trans hp
      · exact f.trans hp
    | ensureAuthUI =>
      simp only [perform]
      rw [(EnsureAuthUI_spec env self).2, hp]
      rfl
  · intro ops
    exact (performAll_prompted env _ ops ⟨by decide, fun _ => by decide⟩).1

/-- Claim C16 in a world that never reports authentication: after `OnLoad`, two calls of
`EnsureAuthUI` and a second `OnLoad` on a fresh plugin, the config page was opened once. -/
theorem config_page_opened_at_most_once_witness :
    (performAll ⟨fun _ ep => if ep = ['/'] then "\x7b\"status\":\"online\"\x7d".toList
          else "\x7b\"authenticated\":false\x7d".toList, fun _ => true, fun _ => true⟩
        YouTubeMusicPlugin.construct
        [.onLoad, .ensureAuthUI, .ensureAuthUI, .onLoad]).trace.countP isOpenUrl ≤ 1 ∧
      (performAll ⟨fun _ ep => if ep = ['/'] then "\x7b\"status\":\"online\"\x7d".toList
          else "\x7b\"authenticated\":false\x7d".toList, fun _ => true, fun _ => true⟩
        YouTubeMusicPlugin.construct
        [.onLoad, .ensureAuthUI, .ensureAuthUI, .onLoad]).trace.countP isOpenUrl = 1 :=
  ⟨(config_page_opened_at_most_once
      ⟨fun _ ep => if ep = ['/'] then "\x7b\"status\":\"online\"\x7d".toList
        else "\x7b\"authenticated\":false\x7d".toList, fun _ => true, fun _ => true⟩).2.2
      [.onLoad, .ensureAuthUI, .ensureAuthUI, .onLoad], by decide⟩

/-! ## Two calls of `EnsureBackendRunning` at once -/

/-- The four steps of one call, taken without interruption, are `EnsureBackendRunning`. -/
theorem ensureStep_four (env : Env) (self : YouTubeMusicPlugin) :
    ensureStep env
        (ensureStep env
          (ensureStep env (ensureStep env self .start).2 (ensureStep env self .start).1).2
          (ensureStep env (ensureStep env self .start).2 (ensureStep env self .start).1).1).2
        (ensureStep env
          (ensureStep env (ensureStep env self .start).2 (ensureStep env self .start).1).2
          (ensureStep env (ensureStep env self .start).2 (ensureStep env self .start).1).1).1
      = (.done (YouTubeMusicPlugin.EnsureBackendRunning env self).1,
          (YouTubeMusicPlugin.EnsureBackendRunning env self).2) := by
  obtain ⟨sr, up, br, pp, ap, tr⟩ := self
  simp only [YouTubeMusicPlugin.EnsureBackendRunning, YouTubeMusicPlugin.launchBackend]
  cases br
  · simp only [Bool.false_eq_true, if_false, ensureStep]
    by_cases hs : env.scriptExists tr = true
    · simp only [hs, if_true, ensureStep]
      by_cases hl : env.launch tr = true
      · simp only [hl, if_true, ensureStep]
      · simp only [hl, if_false, ensureStep, Bool.false_eq_true]
    · simp only [hs, if_false, ensureStep, Bool.false_eq_true]
  · simp only [if_true, ensureStep]
    by_cases ha : (YouTubeMusicPlugin.IsServerAlive env ⟨sr, up, true, pp, ap, tr⟩).1 = true
    · simp only [ha, if_true, ensureStep]
    · simp only [ha, if_false, ensureStep, Bool.false_eq_true]
      by_cases hs : env.scriptExists
          (YouTubeMusicPlugin.IsServerAlive env ⟨sr, up, true, pp, ap, tr⟩).2.trace = true
      · simp only [hs, if_true, ensureStep]
        by_cases hl : env.launch
            (YouTubeMusicPlugin.IsServerAlive env ⟨sr, up, true, pp, ap, tr⟩).2.trace = true
        · simp only [hl, if_true, ensureStep]
        · simp only [hl, if_false, ensureStep, Bool.false_eq_true]
      · simp only [hs, if_false, ensureStep, Bool.false_eq_true]

/-- Two calls that do not overlap are two calls of `EnsureBackendRunning` in a row. -/
theorem runSchedule_in_turn (env : Env) (self : YouTubeMusicPlugin) :
    runSchedule env ⟨.start, .start, self⟩
        [false, false, false, false, true, true, true, true]
      = ⟨.done (YouTubeMusicPlugin.EnsureBackendRunning env self).1,
          .done (YouTubeMusicPlugin.EnsureBackendRunning env
            (YouTubeMusicPlugin.EnsureBackendRunning env self).2).1,
          (YouTubeMusicPlugin.EnsureBackendRunning env
            (YouTubeMusicPlugin.EnsureBackendRunning env self).2).2⟩ := by
  have h1 := ensureStep_four env self
  have h2 := ensureStep_four env (YouTubeMusicPlugin.EnsureBackendRunning env self).2
  simp only [runSchedule, List.foldl_cons, List.foldl_nil, stepCall, Bool.false_eq_true, if_false,
    if_true]
  rw [h1]
  simp only
  rw [h2]

/-- One step of a call appends its actions, and what it launches is accounted for by the
point the call reaches. -/
theorem ensureStep_launches (env : Env) (self : YouTubeMusicPlugin) (pt : EnsurePoint) :
    ∃ new, (ensureStep env self pt).2.trace = self.trace ++ new ∧
      new.countP isLaunch + launchesDone pt ≤ launchesDone (ensureStep env self pt).1 := by
  cases pt with
  | start =>
    simp only [ensureStep]
    by_cases hb : self.backendRunning = true
    · simp only [hb, if_true]
      split
      · exact ⟨[Event.get ['/'] (env.get self.trace ['/'])], rfl, by simp [launchesDone, isLaunch]⟩
      · exact ⟨[Event.get ['/'] (env.get self.trace ['/'])], rfl, by simp [launchesDone, isLaunch]⟩
    · simp only [hb, Bool.false_eq_true, if_false]
      exact ⟨[], by simp, by simp [launchesDone]⟩
  | checkScript =>
    simp only [ensureStep]
    split
    · exact ⟨[], by simp, by simp [launchesDone]⟩
    · exact ⟨[], by simp, by simp [launchesDone]⟩
  | launch =>
    simp only [ensureStep]
    split
    · exact ⟨[Event.launch true], rfl, by simp [launchesDone, isLaunch]⟩
    · exact ⟨[Event.launch false], rfl, by simp [launchesDone, isLaunch]⟩
  | probe =>
    exact ⟨[Event.get ['/'] (env.get self.trace ['/'])], rfl, by simp [launchesDone, isLaunch, ensureStep]⟩
  | done result =>
    exact ⟨[], by simp [ensureStep], by simp [launchesDone, ensureStep]⟩

theorem runSchedule_launches (env : Env) (c : TwoCalls) (schedule : List Bool) :
    ∃ new, (runSchedule env c schedule).plugin.trace = c.plugin.trace ++ new ∧
      new.countP isLaunch + launchesDone c.first + launchesDone c.second
        ≤ launchesDone (runSchedule env c schedule).first
          + launchesDone (runSchedule env c schedule).second := by
  induction schedule generalizing c with
  | nil => exact ⟨[], by simp [runSchedule], by simp [runSchedule]⟩
  | cons b bs ih =>
    obtain ⟨n2, t2, l2⟩ := ih (stepCall env c b)
    have hrun : runSchedule env c (b :: bs) = runSchedule env (stepCall env c b) bs := rfl
    rw [hrun]
    cases b with
    | false =>
      obtain ⟨n1, t1, l1⟩ := ensureStep_launches env c.plugin c.first
      have hp : (stepCall env c false).plugin = (ensureStep env c.plugin c.first).2 := rfl
      have hf : (stepCall env c false).first = (ensureStep env c.plugin c.first).1 := rfl
      have hs : (stepCall env c false).second = c.second := rfl
      rw [hp, t1] at t2
      rw [hf, hs] at l2
      refine ⟨n1 ++ n2, by rw [t2, List.append_assoc], ?_⟩
      rw [List.countP_append]
      omega
    | true =>
      obtain ⟨n1, t1, l1⟩ := ensureStep_launches env c.plugin c.second
      have hp : (stepCall env c true).plugin = (ensureStep env c.plugin c.second).2 := rfl
      have hf : (stepCall env c true).second = (ensureStep env c.plugin c.second).1 := rfl
      have hs : (stepCall env c true).first = c.first := rfl
      rw [hp, t1] at t2
      rw [hf, hs] at l2
      refine ⟨n1 ++ n2, by rw [t2, List.append_assoc], ?_⟩
      rw [List.countP_append]
      omega

theorem launchesDone_le_one (pt : EnsurePoint) : launchesDone pt ≤ 1 := by
  cases pt <;> simp [launchesDone]

/-- Claim C17, on the code: on a fresh plugin, with `main.py` present, the creation of the process
succeeding and the backend down until a process is launched, two calls that take their steps
in turn both pass the running check, both create a process and both return success: two
backend processes are launched. In the same world, two calls that do not overlap launch one
process. -/
theorem two_calls_launch_twice :
    runSchedule
        ⟨fun tr _ => if tr.any isLaunch then "\x7b\"status\":\"online\"\x7d".toList else [],
          fun _ => true, fun _ => true⟩
        ⟨.start, .start, YouTubeMusicPlugin.construct⟩
        [false, true, false, true, false, true, false, true]
      = ⟨.done true, .done true,
          { searchResults := [], userPlaylists := [], backendRunning := true,
            pythonProcess := true, authPromptShown := false,
            trace := [Event.launch true, Event.launch true,
              Event.get ['/'] "\x7b\"status\":\"online\"\x7d".toList,
              Event.get ['/'] "\x7b\"status\":\"online\"\x7d".toList] }⟩ ∧
      ([Event.launch true, Event.launch true,
        Event.get ['/'] "\x7b\"status\":\"online\"\x7d".toList,
        Event.get ['/'] "\x7b\"status\":\"online\"\x7d".toList].countP isLaunch = 2) ∧
      (runSchedule
        ⟨fun tr _ => if tr.any isLaunch then "\x7b\"status\":\"online\"\x7d".toList else [],
          fun _ => true, fun _ => true⟩
        ⟨.start, .start, YouTubeMusicPlugin.construct⟩
        [false, false, false, false, true, true, true, true]).plugin.trace.countP isLaunch
        = 1 := by
  decide

/-- In every interleaving of two calls of `EnsureBackendRunning` on one plugin, in every outside
world, each call launches at most one process, so at most two are launched in all; two calls
that do not overlap are two calls in a row. -/
theorem two_calls_launch_at_most_twice (env : Env) (self : YouTubeMusicPlugin) :
    (∀ schedule : List Bool,
      (newEvents self (runSchedule env ⟨.start, .start, self⟩ schedule).plugin).countP isLaunch
        ≤ 2) ∧
    runSchedule env ⟨.start, .start, self⟩ [false, false, false, false, true, true, true, true]
      = ⟨.done (YouTubeMusicPlugin.EnsureBackendRunning env self).1,
          .done (YouTubeMusicPlugin.EnsureBackendRunning env
            (YouTubeMusicPlugin.EnsureBackendRunning env self).2).1,
          (YouTubeMusicPlugin.EnsureBackendRunning env
            (YouTubeMusicPlugin.EnsureBackendRunning env self).2).2⟩ := by
  refine ⟨?_, runSchedule_in_turn env self⟩
  intro schedule
  obtain ⟨new, ht, hl⟩ := runSchedule_launches env ⟨.start, .start, self⟩ schedule
  rw [newEvents_of_append _ _ new ht]
  have h1 := launchesDone_le_one (runSchedule env ⟨.start, .start, self⟩ schedule).first
  have h2 := launchesDone_le_one (runSchedule env ⟨.start, .start, self⟩ schedule).second
  omega

end YTMusic
